import Mathlib

/-!
# Verification of the influxdb3 write-buffer validation path

A shallow embedding, in Lean, of the line-protocol validation and
storage-path logic of the `influxdb3_write` crate:

* `src/influxdb3_write/src/paths.rs` — object-store path construction
  (`CatalogFilePath::new`, `SegmentInfoFilePath::new`), which encode the
  numeric component as `u32::MAX - id`, zero-padded to ten digits.
* `src/influxdb3_write/src/write_buffer/mod.rs` — the validation pipeline
  `parse_validate_and_update_catalog` →
  `parse_validate_and_update_schema` →
  `validate_or_insert_schema_and_partitions` →
  `validate_and_convert_parsed_line`.

Collaborator code that the crate consumes but that lives outside the
excerpted sources (the `catalog` module's `Catalog` / `DatabaseSchema` /
`TableDefinition` operations, `SegmentDuration`, `Precision`,
`guess_precision`, and the external `influxdb_line_protocol` parser) is
modelled from the specification; every such definition is marked
`Modelled from the spec:` in its doc comment.

Machine integers (`u32`, `i64`) are modelled as `Nat`/`Int`; Rust's `i64`
division truncates toward zero, which is `Int.tdiv` here.  Hash maps with
`entry(..).or_default()` access are modelled as insertion-ordered
association lists with unique keys, which captures everything the claims
depend on (key sets, per-key contents) while abstracting iteration order.
-/

namespace InfluxModel

/-! ## Association-list maps

Model of `HashMap`/`BTreeMap` as used by the validation code: an
insertion-ordered list of key-value pairs with unique keys. -/

/-- Lookup of a key, first matching entry. -/
def smapFind? {α β : Type} [DecidableEq α] : List (α × β) → α → Option β
  | [], _ => none
  | (a, b) :: t, k => if a = k then some b else smapFind? t k

/-- Model of `map.entry(k).or_default()` followed by an in-place update:
if the key is present its value is rewritten through `f`, otherwise
`f d` is appended (`d` playing the role of `Default::default()`). -/
def smapModify {α β : Type} [DecidableEq α] : List (α × β) → α → β → (β → β) → List (α × β)
  | [], k, d, f => [(k, f d)]
  | (a, b) :: t, k, d, f =>
      if a = k then (a, f b) :: t else (a, b) :: smapModify t k d f

/-- Model of `map.insert(k, v)`: replace the value if the key is present,
append otherwise. -/
def smapInsert {α β : Type} [DecidableEq α] (m : List (α × β)) (k : α) (v : β) : List (α × β) :=
  smapModify m k v (fun _ => v)

/-- The keys of the map, in insertion order. -/
def smapKeys {α β : Type} (m : List (α × β)) : List α := m.map Prod.fst

theorem smapFind?_modify_self {α β : Type} [DecidableEq α]
    (m : List (α × β)) (k : α) (d : β) (f : β → β) :
    smapFind? (smapModify m k d f) k = some (f ((smapFind? m k).getD d)) := by
  induction m with
  | nil => simp [smapModify, smapFind?]
  | cons p t ih =>
      obtain ⟨a, b⟩ := p
      by_cases h : a = k
      · simp [smapModify, smapFind?, h]
      · simp [smapModify, smapFind?, h, ih]

theorem smapFind?_modify_ne {α β : Type} [DecidableEq α]
    (m : List (α × β)) (k k' : α) (d : β) (f : β → β) (h : k' ≠ k) :
    smapFind? (smapModify m k d f) k' = smapFind? m k' := by
  have hkk : ¬ (k = k') := fun hh => h hh.symm
  induction m with
  | nil => simp [smapModify, smapFind?, hkk]
  | cons p t ih =>
      obtain ⟨a, b⟩ := p
      by_cases ha : a = k
      · subst ha
        simp [smapModify, smapFind?, hkk]
      · simp [smapModify, smapFind?, ha, ih]

theorem smapKeys_modify {α β : Type} [DecidableEq α]
    (m : List (α × β)) (k : α) (d : β) (f : β → β) :
    smapKeys (smapModify m k d f) =
      if k ∈ smapKeys m then smapKeys m else smapKeys m ++ [k] := by
  induction m with
  | nil => simp [smapModify, smapKeys]
  | cons p t ih =>
      obtain ⟨a, b⟩ := p
      by_cases h : a = k
      · subst h
        simp [smapModify, smapKeys]
      · have hka : ¬ (k = a) := fun hh => h hh.symm
        have hcons : smapModify ((a, b) :: t) k d f = (a, b) :: smapModify t k d f := by
          simp [smapModify, h]
        rw [hcons]
        have hk2 : smapKeys ((a, b) :: t) = a :: smapKeys t := rfl
        show a :: smapKeys (smapModify t k d f) = _
        rw [ih, hk2]
        by_cases hmem : k ∈ smapKeys t
        · rw [if_pos hmem, if_pos (show k ∈ a :: smapKeys t from List.mem_cons_of_mem a hmem)]
        · rw [if_neg hmem, if_neg (show ¬ k ∈ a :: smapKeys t by
            intro hc
            rcases List.mem_cons.mp hc with h1 | h1
            · exact hka h1
            · exact hmem h1)]
          try rfl

theorem nodup_smapKeys_modify {α β : Type} [DecidableEq α]
    (m : List (α × β)) (k : α) (d : β) (f : β → β) (h : (smapKeys m).Nodup) :
    (smapKeys (smapModify m k d f)).Nodup := by
  rw [smapKeys_modify]
  by_cases hmem : k ∈ smapKeys m
  · simpa [hmem]
  · simpa [hmem, List.nodup_append] using h

theorem smapFind?_isSome_iff_mem {α β : Type} [DecidableEq α]
    (m : List (α × β)) (k : α) :
    (smapFind? m k).isSome ↔ k ∈ smapKeys m := by
  induction m with
  | nil => simp [smapFind?, smapKeys]
  | cons p t ih =>
      obtain ⟨a, b⟩ := p
      by_cases h : a = k
      · simp [smapFind?, smapKeys, h]
      · have hka : ¬ (k = a) := fun hh => h hh.symm
        simp [smapFind?, smapKeys, h, ih, hka]

theorem smapFind?_insert_self {α β : Type} [DecidableEq α]
    (m : List (α × β)) (k : α) (v : β) :
    smapFind? (smapInsert m k v) k = some v := by
  simpa [smapInsert] using smapFind?_modify_self m k v (fun _ => v)

theorem smapFind?_insert_ne {α β : Type} [DecidableEq α]
    (m : List (α × β)) (k k' : α) (v : β) (h : k' ≠ k) :
    smapFind? (smapInsert m k v) k' = smapFind? m k' :=
  smapFind?_modify_ne m k k' v (fun _ => v) h

theorem smapInsert_isSome_iff {α β : Type} [DecidableEq α]
    (m : List (α × β)) (k k' : α) (v : β) :
    (smapFind? (smapInsert m k' v) k).isSome ↔ k = k' ∨ (smapFind? m k).isSome := by
  by_cases h : k = k'
  · subst h
    simp [smapFind?_insert_self]
  · simp [smapFind?_insert_ne m k' k v h, h]

theorem smapFind?_foldl_insert_isSome_iff {α β : Type} [DecidableEq α]
    (ps : List (α × β)) (m : List (α × β)) (k : α) :
    (smapFind? (ps.foldl (fun acc p => smapInsert acc p.1 p.2) m) k).isSome ↔
      (smapFind? m k).isSome ∨ k ∈ ps.map Prod.fst := by
  induction ps generalizing m with
  | nil => simp
  | cons p rest ih =>
      simp only [List.foldl_cons, ih, smapInsert_isSome_iff, List.map_cons, List.mem_cons]
      tauto

theorem nodup_smapKeys_insert {α β : Type} [DecidableEq α]
    (m : List (α × β)) (k : α) (v : β) (h : (smapKeys m).Nodup) :
    (smapKeys (smapInsert m k v)).Nodup :=
  nodup_smapKeys_modify m k v (fun _ => v) h

theorem nodup_smapKeys_foldl_insert {α β : Type} [DecidableEq α]
    (ps : List (α × β)) (m : List (α × β)) (h : (smapKeys m).Nodup) :
    (smapKeys (ps.foldl (fun acc p => smapInsert acc p.1 p.2) m)).Nodup := by
  induction ps generalizing m with
  | nil => simpa
  | cons p rest ih => exact ih _ (nodup_smapKeys_insert m p.1 p.2 h)

theorem smapInsert_of_not_mem {α β : Type} [DecidableEq α]
    (m : List (α × β)) (k : α) (v : β) (h : k ∉ smapKeys m) :
    smapInsert m k v = m ++ [(k, v)] := by
  induction m with
  | nil => simp [smapInsert, smapModify]
  | cons p t ih =>
      obtain ⟨a, b⟩ := p
      have hak : ¬ (a = k) := by
        intro hh
        exact h (by simp [smapKeys, hh])
      have ht : k ∉ smapKeys t := by
        intro hh
        exact h (by simp [smapKeys] at hh ⊢; exact Or.inr hh)
      simp only [smapInsert, smapModify, if_neg hak, List.cons_append]
      exact congrArg _ (ih ht)

theorem foldl_smapInsert_append {α β : Type} [DecidableEq α]
    (ps : List (α × β)) (m : List (α × β))
    (hdisj : ∀ k ∈ ps.map Prod.fst, k ∉ smapKeys m)
    (hnd : (ps.map Prod.fst).Nodup) :
    ps.foldl (fun acc p => smapInsert acc p.1 p.2) m = m ++ ps := by
  induction ps generalizing m with
  | nil => simp
  | cons p rest ih =>
      have h1 : p.1 ∉ smapKeys m := hdisj p.1 (by simp)
      have hstep : smapInsert m p.1 p.2 = m ++ [p] := by
        simpa using smapInsert_of_not_mem m p.1 p.2 h1
      have hkeys : smapKeys (m ++ [p]) = smapKeys m ++ [p.1] := by
        simp [smapKeys]
      have hnd' : (rest.map Prod.fst).Nodup := (List.nodup_cons.mp hnd).2
      have hdisj' : ∀ k ∈ rest.map Prod.fst, k ∉ smapKeys (m ++ [p]) := by
        intro k hk
        rw [hkeys]
        intro hc
        rcases List.mem_append.mp hc with hc1 | hc1
        · exact hdisj k (by simp [List.mem_cons]; right; simpa using hk) hc1
        · have : k = p.1 := by simpa using hc1
          exact (List.nodup_cons.mp hnd).1 (this ▸ hk)
      calc (p :: rest).foldl (fun acc q => smapInsert acc q.1 q.2) m
          = rest.foldl (fun acc q => smapInsert acc q.1 q.2) (m ++ [p]) := by
            simp [hstep]
        _ = (m ++ [p]) ++ rest := ih (m ++ [p]) hdisj' hnd'
        _ = m ++ p :: rest := by simp

theorem smapFind?_eq_of_mem_nodup {α β : Type} [DecidableEq α]
    (m : List (α × β)) (k : α) (v : β)
    (hnd : (smapKeys m).Nodup) (hmem : (k, v) ∈ m) :
    smapFind? m k = some v := by
  induction m with
  | nil => simp at hmem
  | cons p t ih =>
      obtain ⟨a, b⟩ := p
      rcases List.mem_cons.mp hmem with h1 | h1
      · have h2 : k = a := congrArg Prod.fst h1
        have h3 : v = b := congrArg Prod.snd h1
        simp [smapFind?, h2, h3]
      · have hnd' := (List.nodup_cons.mp hnd).2
        have hka : ¬ (a = k) := by
          intro hh
          subst hh
          exact (List.nodup_cons.mp hnd).1
            (by simpa [smapKeys] using List.mem_map_of_mem Prod.fst h1)
        simp [smapFind?, hka, ih hnd' h1]

theorem sum_smapModify {α β : Type} [DecidableEq α]
    (g : β → Nat) (m : List (α × β)) (k : α) (d : β) (f : β → β)
    (hf : g (f ((smapFind? m k).getD d)) = g ((smapFind? m k).getD d) + 1)
    (hd : g d = 0) :
    ((smapModify m k d f).map (fun p => g p.2)).sum = (m.map (fun p => g p.2)).sum + 1 := by
  induction m with
  | nil =>
      simp [smapModify, smapFind?] at hf ⊢
      omega
  | cons p t ih =>
      obtain ⟨a, b⟩ := p
      by_cases h : a = k
      · subst h
        simp [smapModify, smapFind?] at hf ⊢
        omega
      · simp only [smapModify, if_neg h, List.map_cons, List.sum_cons]
        have hf' : g (f ((smapFind? t k).getD d)) = g ((smapFind? t k).getD d) + 1 := by
          simpa [smapFind?, h] using hf
        rw [ih hf']
        omega

/-! ## Storage paths (`src/influxdb3_write/src/paths.rs`)

`format!("{:010}", n)` on a `u32` value zero-pads the decimal form to ten
digits; every `u32` fits in ten digits, so the result is exactly the
ten-digit zero-padded decimal representation. -/

/-- The decimal digit character for `d < 10`. -/
def digitChar (d : Nat) : Char := Char.ofNat (48 + d)

/-- The `k`-digit zero-padded decimal representation of `n`
(most significant digit first). -/
def padDigits : Nat → Nat → List Char
  | 0, _ => []
  | k + 1, n => padDigits k (n / 10) ++ [digitChar (n % 10)]

/-- `format!("{:010}", n)` for `n < 10^10`. -/
def formatPad10 (n : Nat) : String := String.mk (padDigits 10 n)

/-- `u32::MAX`. -/
def u32Max : Nat := 4294967295

/-- `CatalogFilePath::new(segment_id)`:
`format!("catalogs/{:010}.{}", u32::MAX - segment_id.0, "json")`. -/
def catalogFilePath (segmentId : Nat) : String :=
  "catalogs/" ++ formatPad10 (u32Max - segmentId) ++ ".json"

/-- `SegmentInfoFilePath::new(segment_id)`:
`format!("segments/{:010}.{}", u32::MAX - segment_id.0, "info.json")`. -/
def segmentInfoFilePath (segmentId : Nat) : String :=
  "segments/" ++ formatPad10 (u32Max - segmentId) ++ ".info.json"

theorem digitChar_mono : ∀ a < 10, ∀ b < 10, a < b → digitChar a < digitChar b := by
  decide

theorem append_lt_append_left (p : List Char) {x y : List Char} (h : x < y) :
    p ++ x < p ++ y := by
  induction p with
  | nil => exact h
  | cons c cs ih => exact List.Lex.cons ih

theorem padDigits_append_lt (k : Nat) :
    ∀ m n : Nat, m < n → n < 10 ^ k →
    ∀ s t : List Char, padDigits k m ++ s < padDigits k n ++ t := by
  induction k with
  | zero =>
      intro m n hmn hn s t
      omega
  | succ k ih =>
      intro m n hmn hn s t
      have hdivle : m / 10 ≤ n / 10 := Nat.div_le_div_right (Nat.le_of_lt hmn)
      rcases Nat.lt_or_ge (m / 10) (n / 10) with hdiv | hdiv
      · have hn10 : n / 10 < 10 ^ k := by
          have hh : n < 10 * 10 ^ k := by
            rw [Nat.pow_succ] at hn
            omega
          exact Nat.div_lt_of_lt_mul hh
        have := ih (m / 10) (n / 10) hdiv hn10
          (digitChar (m % 10) :: s) (digitChar (n % 10) :: t)
        simpa [padDigits, List.append_assoc] using this
      · have hdeq : m / 10 = n / 10 := Nat.le_antisymm hdivle hdiv
        have hmod : m % 10 < n % 10 := by
          have h1 := Nat.div_add_mod m 10
          have h2 := Nat.div_add_mod n 10
          omega
        have hchar : digitChar (m % 10) < digitChar (n % 10) :=
          digitChar_mono (m % 10) (Nat.mod_lt m (by norm_num)) (n % 10)
            (Nat.mod_lt n (by norm_num)) hmod
        have : padDigits k (m / 10) ++ (digitChar (m % 10) :: s) <
            padDigits k (m / 10) ++ (digitChar (n % 10) :: t) :=
          append_lt_append_left _ (List.Lex.rel hchar)
        rw [hdeq] at this
        conv at this => rw [← hdeq]
        simpa [padDigits, List.append_assoc, hdeq] using this

/-- **C9.** Storage keys are reverse-numbered so newer segments sort
first: `CatalogFilePath::new(SegmentId(0))` is exactly
`catalogs/4294967295.json`, and for every pair of segment ids `a < b`
(both valid `u32` values), the segment-info path of `b` lexicographically
precedes the segment-info path of `a`. -/
theorem catalog_path_reverse_numbering :
    catalogFilePath 0 = "catalogs/4294967295.json" ∧
    ∀ a b : Nat, a < b → b ≤ u32Max →
      segmentInfoFilePath b < segmentInfoFilePath a := by
  constructor
  · decide
  · intro a b hab hb
    rw [String.lt_iff_toList_lt]
    show (segmentInfoFilePath b).data < (segmentInfoFilePath a).data
    have hdata : ∀ i : Nat, (segmentInfoFilePath i).data =
        "segments/".data ++ (padDigits 10 (u32Max - i) ++ ".info.json".data) := by
      intro i
      simp [segmentInfoFilePath, formatPad10, String.data_append, List.append_assoc]
    rw [hdata a, hdata b]
    apply append_lt_append_left
    apply padDigits_append_lt
    · omega
    · show u32Max - a < 10 ^ 10
      have : u32Max < 10 ^ 10 := by norm_num [u32Max]
      omega

/-- Concrete instantiation of `catalog_path_reverse_numbering`:
segment ids 1 < 2 (both within `u32` range). -/
theorem catalog_path_reverse_numbering_witness :
    1 < 2 ∧ 2 ≤ u32Max ∧ segmentInfoFilePath 2 < segmentInfoFilePath 1 :=
  ⟨by decide, by decide,
    catalog_path_reverse_numbering.2 1 2 (by decide) (by decide)⟩

/-! ## Data model of the validation pipeline -/

/-- Modelled from the spec: `data_types::ColumnType` (external collaborator
crate) — column kinds `Tag`, `Field` (Integer / UInteger / Float / Boolean /
String) and `Time`. -/
inductive ColumnType
  | i64
  | u64
  | f64
  | bool
  | string
  | time
  | tag
deriving DecidableEq, Repr

/-- Modelled from the spec: the numeric code produced by `ColumnType as i16`
when a column is stored in a `TableDefinition`'s column map.  The exact code
values are opaque to the validation logic; all that matters is that distinct
column types receive distinct codes. -/
def ColumnType.toCode : ColumnType → Int
  | .i64 => 1
  | .u64 => 2
  | .f64 => 3
  | .bool => 4
  | .string => 5
  | .time => 6
  | .tag => 7

/-- Modelled from the spec: `influxdb_line_protocol::FieldValue` (external
parser crate) — a parsed field value.  Floating-point payloads are carried
as their IEEE-754 bit patterns and never interpreted arithmetically. -/
inductive FieldValue
  | i64 (v : Int)
  | u64 (v : Nat)
  | f64 (bits : Nat)
  | boolean (v : Bool)
  | str (v : String)
deriving DecidableEq, Repr

/-- Modelled from the spec: `data_types::column_type_from_field`, inferring
a column type from a field value's underlying type. -/
def column_type_from_field : FieldValue → ColumnType
  | .i64 _ => .i64
  | .u64 _ => .u64
  | .f64 _ => .f64
  | .boolean _ => .bool
  | .str _ => .string

/-- Modelled from the spec: `influxdb_line_protocol::ParsedLine` (external
parser crate) — measurement name, optional tag set, field set, optional
timestamp literal.  The `series.measurement` / `series.tag_set` nesting of
the Rust type is flattened. -/
structure ParsedLine where
  measurement : String
  tag_set : Option (List (String × String))
  field_set : List (String × FieldValue)
  timestamp : Option Int
deriving DecidableEq, Repr

/-- `FieldData` from `write_buffer/mod.rs` (the `String` variant is named
`str` here to avoid shadowing). -/
inductive FieldData
  | timestamp (v : Int)
  | tag (v : String)
  | str (v : String)
  | integer (v : Int)
  | uinteger (v : Nat)
  | float (bits : Nat)
  | boolean (v : Bool)
deriving DecidableEq, Repr

/-- `Field` from `write_buffer/mod.rs`. -/
structure Field where
  name : String
  value : FieldData
deriving DecidableEq, Repr

/-- `Row` from `write_buffer/mod.rs`. -/
structure Row where
  time : Int
  fields : List Field
deriving DecidableEq, Repr

/-- `TIME_COLUMN_NAME` from the catalog module. -/
def TIME_COLUMN_NAME : String := "time"

/-- Modelled from the spec: `catalog::TableDefinition` — a table name plus
an ordered column set mapping column name to its `i16` type code.  The
`BTreeMap` is modelled as an association list with unique keys (iteration
order abstracted). -/
structure TableDefinition where
  name : String
  columns : List (String × Int)
deriving DecidableEq, Repr

/-- Modelled from the spec: `TableDefinition::column_exists` — a name-only
membership test on the column set. -/
def TableDefinition.column_exists (t : TableDefinition) (column : String) : Bool :=
  (smapFind? t.columns column).isSome

/-- Modelled from the spec: `TableDefinition::add_columns` — add the given
named/typed columns to the column set. -/
def TableDefinition.add_columns (t : TableDefinition) (cols : List (String × Int)) :
    TableDefinition :=
  { t with columns := cols.foldl (fun m p => smapInsert m p.1 p.2) t.columns }

/-- Modelled from the spec: `catalog::DatabaseSchema` — a database name plus
a map of table name → `TableDefinition`. -/
structure DatabaseSchema where
  name : String
  tables : List (String × TableDefinition)
deriving DecidableEq, Repr

/-- `DatabaseSchema::new(name)`: a schema with no tables. -/
def DatabaseSchema.empty (name : String) : DatabaseSchema := ⟨name, []⟩

/-- `Precision` from the crate root. -/
inductive Precision
  | auto
  | second
  | millisecond
  | microsecond
  | nanosecond
deriving DecidableEq, Repr

/-- Modelled from the spec: `SegmentDuration` — a fixed-width time-bucketing
value, stored as a positive number of seconds (`new_5m` = 300 seconds). -/
structure SegmentDuration where
  seconds : Int
deriving DecidableEq, Repr

/-- `SegmentDuration::new_5m()`. -/
def SegmentDuration.new_5m : SegmentDuration := ⟨300⟩

/-- Modelled from the spec: `SegmentDuration::start_time(timestamp_seconds)`
rounds the timestamp down to its bucket's start (Rust `i64` division
truncates toward zero, hence `Int.tdiv`) and returns it as a `Time`, i.e.
in nanoseconds. -/
def SegmentDuration.start_time (d : SegmentDuration) (tsSeconds : Int) : Int :=
  Int.tdiv tsSeconds d.seconds * d.seconds * 1000000000

/-- Modelled from the spec: `guess_precision` — `Auto` precision infers a
precision from the magnitude of the timestamp literal (seconds vs.
milliseconds vs. microseconds vs. nanoseconds).  The spec leaves the exact
thresholds as an implementation choice; what the claims rely on is only
that the result is never `auto`. -/
def guess_precision (ts : Int) : Precision :=
  let val : Nat := ts.natAbs / 1000000000
  if val < 5 then .second
  else if val < 5000 then .millisecond
  else if val < 5000000 then .microsecond
  else .nanosecond

theorem guess_precision_ne_auto (ts : Int) : guess_precision ts ≠ .auto := by
  unfold guess_precision
  dsimp only
  split_ifs <;> simp

/-- The nanosecond multiplier applied to a timestamp literal, from the
`match precision` block of `validate_and_convert_parsed_line`
(`write_buffer/mod.rs:623-636`).  The `Precision::Auto` inner arm for
`auto` is Rust's `unreachable!()` (see `guess_precision_ne_auto`); its
value here is inert. -/
def precisionMultiplier (precision : Precision) (ts : Int) : Int :=
  match precision with
  | .auto =>
      match guess_precision ts with
      | .second => 1000000000
      | .millisecond => 1000000
      | .microsecond => 1000
      | .nanosecond => 1
      | .auto => 1
  | .second => 1000000000
  | .millisecond => 1000000
  | .microsecond => 1000
  | .nanosecond => 1

/-- The timestamp resolution of `validate_and_convert_parsed_line`
(`write_buffer/mod.rs:619-640`): a present literal is scaled by the
precision's multiplier, an absent one is replaced by the ingest time. -/
def resolveTimeNanos (precision : Precision) (ingestTimeNanos : Int)
    (lineTs : Option Int) : Int :=
  match lineTs with
  | some ts => ts * precisionMultiplier precision ts
  | none => ingestTimeNanos

/-- `WriteLineError` from the crate root. -/
structure WriteLineError where
  original_line : String
  line_number : Nat
  error_message : String
deriving DecidableEq, Repr

/-- `write_buffer::Error` (the variants reachable from the validation
path). -/
inductive Error
  | parseError (e : WriteLineError)
  | columnTypeMismatch (name : String) (existing : ColumnType) (new : ColumnType)
  | catalogUpdateError (msg : String)
  | databaseNameError (msg : String)
deriving DecidableEq, Repr

/-- `LpWriteOp` from the crate root. -/
structure LpWriteOp where
  db_name : String
  lp : String
  default_time : Int
deriving DecidableEq, Repr

/-- `WalOp` from the crate root. -/
inductive WalOp
  | lpWrite (op : LpWriteOp)
deriving DecidableEq, Repr

/-- `TableBatch` from `write_buffer/mod.rs` (defaults are
`Default::default()`). -/
structure TableBatch where
  name : String := ""
  rows : List Row := []
deriving DecidableEq, Repr

/-- `TableBatchMap` from `write_buffer/mod.rs`: raw source lines plus rows
grouped by table name. -/
structure TableBatchMap where
  lines : List String := []
  table_batches : List (String × TableBatch) := []
deriving DecidableEq, Repr

/-- `ValidSegmentedData` from `write_buffer/mod.rs`. -/
structure ValidSegmentedData where
  database_name : String
  segment_start : Int
  table_batches : List (String × TableBatch)
  wal_op : WalOp
deriving DecidableEq, Repr

/-- `ValidationResult` from `write_buffer/mod.rs`. -/
structure ValidationResult where
  schema : Option DatabaseSchema
  line_count : Nat
  field_count : Nat
  tag_count : Nat
  errors : List WriteLineError
  valid_segmented_data : List ValidSegmentedData
deriving DecidableEq, Repr

/-! ## `validate_and_convert_parsed_line` (`write_buffer/mod.rs:528-663`)

The Rust function mutates `segment_table_batches` and the `Cow`-wrapped
schema through `&mut`; the state is threaded explicitly here.  Its return
type is `Result<()>`, but no arm of its body constructs an error — the
only `Err`-typed paths are `unwrap`/`assert!`/`unreachable!` panics whose
guarding conditions hold by construction — so it is embedded as a total
function on the state. -/

/-- The state mutated by `validate_and_convert_parsed_line`: the
`segment_table_batches` map keyed by bucket start, the (possibly updated)
schema, and whether the schema `Cow` has become `Owned`. -/
structure ConvState where
  segment_table_batches : List (Int × TableBatchMap)
  schema : DatabaseSchema
  owned : Bool
deriving DecidableEq, Repr

/-- The `new_cols` collection of `validate_and_convert_parsed_line`
(lines 546-558): tag keys then field names not yet known as columns, each
paired with its inferred type code. -/
def lineNewCols (t : TableDefinition) (line : ParsedLine) : List (String × Int) :=
  ((line.tag_set.getD []).filter (fun p => ! t.column_exists p.1)).map
      (fun p => (p.1, ColumnType.tag.toCode))
    ++ (line.field_set.filter (fun p => ! t.column_exists p.1)).map
      (fun p => (p.1, (column_type_from_field p.2).toCode))

/-- The column map built for a brand-new table (lines 566-576): all tag
keys typed `Tag`, all field names typed from their values, plus the time
column. -/
def lineTableColumns (line : ParsedLine) : List (String × Int) :=
  let cols := (line.tag_set.getD []).foldl
    (fun m p => smapInsert m p.1 ColumnType.tag.toCode) []
  let cols := line.field_set.foldl
    (fun m p => smapInsert m p.1 (column_type_from_field p.2).toCode) cols
  smapInsert cols TIME_COLUMN_NAME ColumnType.time.toCode

/-- The schema-update half of `validate_and_convert_parsed_line`
(lines 543-586): add missing columns to an existing table, or create a
new `TableDefinition` for an absent one.  The boolean records whether the
schema `Cow` was mutated (`to_mut` called). -/
def updateSchemaForLine (schema : DatabaseSchema) (line : ParsedLine) :
    DatabaseSchema × Bool :=
  match smapFind? schema.tables line.measurement with
  | some t =>
      let new_cols := lineNewCols t line
      if new_cols.isEmpty then (schema, false)
      else
        ({ schema with
            tables := smapInsert schema.tables line.measurement
              (t.add_columns new_cols) }, true)
  | none =>
      ({ schema with
          tables := smapInsert schema.tables line.measurement
            ⟨line.measurement, lineTableColumns line⟩ }, true)

/-- `FieldValue` → `FieldData` conversion (lines 604-611). -/
def fieldDataOf : FieldValue → FieldData
  | .i64 v => .integer v
  | .f64 bits => .float bits
  | .u64 v => .uinteger v
  | .boolean v => .boolean v
  | .str v => .str v

/-- The `values` vector of the constructed row (lines 590-617 and 644-647):
tag fields, then data fields, then the time field. -/
def rowValues (line : ParsedLine) (timeValueNanos : Int) : List Field :=
  (line.tag_set.getD []).map (fun p => Field.mk p.1 (FieldData.tag p.2))
    ++ line.field_set.map (fun p => Field.mk p.1 (fieldDataOf p.2))
    ++ [Field.mk TIME_COLUMN_NAME (FieldData.timestamp timeValueNanos)]

/-- The row a line contributes to its table batch (lines 655-658). -/
def rowOfLine (precision : Precision) (ingestTimeNanos : Int) (line : ParsedLine) : Row :=
  let t := resolveTimeNanos precision ingestTimeNanos line.timestamp
  ⟨t, rowValues line t⟩

/-- The bucket start a line is assigned to (line 642). -/
def bucketOfLine (segment_duration : SegmentDuration) (precision : Precision)
    (ingestTimeNanos : Int) (line : ParsedLine) : Int :=
  segment_duration.start_time
    (Int.tdiv (resolveTimeNanos precision ingestTimeNanos line.timestamp) 1000000000)

/-- `validate_and_convert_parsed_line` itself. -/
def validate_and_convert_parsed_line (line : ParsedLine) (raw_line : String)
    (st : ConvState) (ingest_time : Int) (segment_duration : SegmentDuration)
    (precision : Precision) : ConvState :=
  let updated := updateSchemaForLine st.schema line
  let time_value_nanos := resolveTimeNanos precision ingest_time line.timestamp
  let segment_start := segment_duration.start_time (Int.tdiv time_value_nanos 1000000000)
  { segment_table_batches :=
      smapModify st.segment_table_batches segment_start {}
        (fun tbm =>
          { lines := tbm.lines ++ [raw_line]
            table_batches :=
              smapModify tbm.table_batches line.measurement {}
                (fun tb =>
                  { tb with
                      rows := tb.rows ++ [⟨time_value_nanos, rowValues line time_value_nanos⟩] }) })
    schema := updated.1
    owned := st.owned || updated.2 }

/-- The `for (line, raw_line) in lines` loop of
`validate_or_insert_schema_and_partitions` (lines 482-495). -/
def processLines (ingest_time : Int) (segment_duration : SegmentDuration)
    (precision : Precision) : ConvState → List (ParsedLine × String) → ConvState
  | st, [] => st
  | st, (l, r) :: rest =>
      processLines ingest_time segment_duration precision
        (validate_and_convert_parsed_line l r st ingest_time segment_duration precision) rest

/-- `Vec::join("\n")` on the retained raw lines (line 510). -/
def joinWithNewline : List String → String
  | [] => ""
  | [s] => s
  | s :: rest => s ++ "\n" ++ joinWithNewline rest

/-- `validate_or_insert_schema_and_partitions` (lines 464-524).  The Rust
return type is `Result<ValidationResult>`, but the only fallible step is
the per-line conversion, which never errors in this version; the function
is embedded as total. -/
def validate_or_insert_schema_and_partitions (lines : List (ParsedLine × String))
    (schema : DatabaseSchema) (db_name : String) (ingest_time : Int)
    (segment_duration : SegmentDuration) (precision : Precision) : ValidationResult :=
  let st := processLines ingest_time segment_duration precision
    ⟨[], schema, false⟩ lines
  { schema := if st.owned then some st.schema else none
    line_count := lines.length
    field_count := (lines.map (fun p => p.1.field_set.length)).sum
    tag_count := (lines.map (fun p => (p.1.tag_set.getD []).length)).sum
    errors := []
    valid_segmented_data :=
      st.segment_table_batches.map (fun p =>
        { database_name := db_name
          segment_start := p.1
          table_batches := p.2.table_batches
          wal_op := .lpWrite ⟨db_name, joinWithNewline p.2.lines, ingest_time⟩ }) }

/-! ## Line iteration and `parse_validate_and_update_schema` -/

/-- Model of Rust `str::lines`: split on `'\n'`, dropping the trailing
empty piece produced by a terminal newline.  (Carriage returns are not
treated specially.) -/
def splitNl : List Char → List (List Char)
  | [] => [[]]
  | c :: cs =>
      if c = '\n' then [] :: splitNl cs
      else
        match splitNl cs with
        | [] => [[c]]
        | h :: t => (c :: h) :: t

/-- `lp.lines()` as a list. -/
def strLines (s : String) : List String :=
  let parts := (splitNl s.data).map String.mk
  if parts.getLast? = some "" then parts.dropLast else parts

/-- Modelled from the spec: the external
`influxdb_line_protocol::parse_lines` iterator, parametrized by the
single-line parser `parse1`.  Per spec §8 ("the number of (valid rows +
reported errors) equals the number of non-empty input lines") it yields
one `Result<ParsedLine>` per non-empty input line and skips empty
lines. -/
def parse_lines (parse1 : String → Except String ParsedLine) (lp : String) :
    List (Except String ParsedLine) :=
  ((strLines lp).filter (fun l => l != "")).map parse1

/-- The `for (line_idx, maybe_line) in parse_lines(lp).enumerate()` loop of
`parse_validate_and_update_schema` (lines 417-444), with the side iterator
`lp_lines` threaded as a list.  A `none` result models the panic of the
three `lp_lines.next().unwrap()` sites firing with the iterator
exhausted. -/
def collectValidLines (ap : Bool) :
    List (Except String ParsedLine) → List String → Nat →
    Option (Except WriteLineError (List (ParsedLine × String) × List WriteLineError))
  | [], _, _ => some (.ok ([], []))
  | .ok line :: rest, raws, line_idx =>
      match raws with
      | [] => none
      | r :: raws' =>
          (collectValidLines ap rest raws' (line_idx + 1)).map
            (fun res => res.map (fun vr => ((line, r) :: vr.1, vr.2)))
  | .error e :: rest, raws, line_idx =>
      match raws with
      | [] => none
      | r :: raws' =>
          if ap then
            (collectValidLines ap rest raws' (line_idx + 1)).map
              (fun res => res.map (fun vr => (vr.1, ⟨r, line_idx + 1, e⟩ :: vr.2)))
          else some (.error ⟨r, line_idx + 1, e⟩)

/-- `parse_validate_and_update_schema` (lines 403-458).  `none` models a
panic at an `unwrap` site; `some (.error _)` is the `Err` return
(`accept_partial = false` and a malformed line); `some (.ok _)` carries
the `ValidationResult` with the collected per-line errors attached. -/
def parse_validate_and_update_schema (parse1 : String → Except String ParsedLine)
    (lp : String) (schema : DatabaseSchema) (db_name : String) (ingest_time : Int)
    (segment_duration : SegmentDuration) ( accept_partial : Bool)
    (precision : Precision) : Option (Except Error ValidationResult) :=
  match collectValidLines accept_partial (parse_lines parse1 lp) (strLines lp) 0 with
  | none => none
  | some (.error e) => some (.error (.parseError e))
  | some (.ok vr) =>
      some (.ok { validate_or_insert_schema_and_partitions vr.1 schema db_name
                    ingest_time segment_duration precision with
                  errors := vr.2 })

/-! ## Catalog and `parse_validate_and_update_catalog` -/

/-- Modelled from the spec: `catalog::Catalog` — a registry of database
name → (sequence number, schema), mutated only by
`db_or_create` / `replace_database`. -/
structure Catalog where
  databases : List (String × (Nat × DatabaseSchema))
deriving DecidableEq, Repr

/-- Modelled from the spec: `Catalog::db_or_create` — return the current
(sequence, schema) for the name, creating an empty schema if absent (side
effect: the catalog gains an entry). -/
def Catalog.db_or_create (c : Catalog) (db_name : String) :
    (Nat × DatabaseSchema) × Catalog :=
  match smapFind? c.databases db_name with
  | some sdb => (sdb, c)
  | none =>
      let fresh : Nat × DatabaseSchema := (0, DatabaseSchema.empty db_name)
      (fresh, ⟨smapInsert c.databases db_name fresh⟩)

/-- Modelled from the spec: `Catalog::replace_database` — install the new
schema only if the stored sequence still equals the expected one,
otherwise fail with a conflict error. -/
def Catalog.replace_database (c : Catalog) (db_name : String) (sequence : Nat)
    (schema : DatabaseSchema) : Except Error Catalog :=
  match smapFind? c.databases db_name with
  | some sdb =>
      if sdb.1 = sequence then
        .ok ⟨smapInsert c.databases db_name (sequence + 1, schema)⟩
      else .error (.catalogUpdateError "catalog updated elsewhere")
  | none => .error (.catalogUpdateError "database not found")

/-- The body of `parse_validate_and_update_catalog` after `db_or_create`
(the `if let Some(schema) = result.schema.take()` block of lines 392-398,
together with the propagation of the validation outcome): on success with
a schema update, install it through `replace_database`; on any error, or
a panic of the inner call, return the catalog as `db_or_create` left it. -/
def catalogStep (c1 : Catalog) (db_name : String) (sequence : Nat)
    (pres : Option (Except Error ValidationResult)) :
    Catalog × Option (Except Error ValidationResult) :=
  match pres with
  | none => (c1, none)
  | some (.error e) => (c1, some (.error e))
  | some (.ok result) =>
      match result.schema with
      | some schema =>
          match c1.replace_database db_name sequence schema with
          | .ok c2 => (c2, some (.ok { result with schema := none }))
          | .error ce => (c1, some (.error ce))
      | none => (c1, some (.ok result))

/-- `parse_validate_and_update_catalog` (lines 372-399).  The returned
`Catalog` is the post-call catalog state (the `db_or_create` side effect
persists even when validation fails). -/
def parse_validate_and_update_catalog (parse1 : String → Except String ParsedLine)
    (db_name : String) (lp : String) (c : Catalog) (ingest_time : Int)
    (segment_duration : SegmentDuration) ( accept_partial : Bool)
    (precision : Precision) : Catalog × Option (Except Error ValidationResult) :=
  let created := c.db_or_create db_name
  catalogStep created.2 db_name created.1.1
    (parse_validate_and_update_schema parse1 lp created.1.2 db_name ingest_time
      segment_duration accept_partial precision)

/-! ## Canonical form of the per-line conversion step -/

/-- `validate_and_convert_parsed_line` in canonical form: the bucket key,
the appended raw line, and the appended row named through `bucketOfLine`
and `rowOfLine`. -/
theorem conv_unfold (line : ParsedLine) (raw_line : String) (st : ConvState)
    (ingest_time : Int) (segment_duration : SegmentDuration) (precision : Precision) :
    validate_and_convert_parsed_line line raw_line st ingest_time segment_duration precision =
      { segment_table_batches :=
          smapModify st.segment_table_batches
            (bucketOfLine segment_duration precision ingest_time line) {}
            (fun tbm =>
              { lines := tbm.lines ++ [raw_line]
                table_batches :=
                  smapModify tbm.table_batches line.measurement {}
                    (fun tb =>
                      { tb with rows := tb.rows ++ [rowOfLine precision ingest_time line] }) })
        schema := (updateSchemaForLine st.schema line).1
        owned := st.owned || (updateSchemaForLine st.schema line).2 } := rfl

/-! ## C4 — timestamp resolution -/

/-- The timestamp-resolution rule as the spec states it, for comparison
with the code's behavior: an omitted timestamp becomes the ingest time;
a literal is scaled by the effective precision's nanosecond multiplier
(1e9 / 1e6 / 1e3 / 1), where `Auto` first infers a precision from the
literal's magnitude. -/
def specResolvedTimestamp (precision : Precision) (ingestTimeNanos : Int)
    (lineTs : Option Int) : Int :=
  match lineTs with
  | none => ingestTimeNanos
  | some ts =>
      let effective := if precision = .auto then guess_precision ts else precision
      ts * match effective with
        | .second => 1000000000
        | .millisecond => 1000000
        | .microsecond => 1000
        | .nanosecond => 1
        | .auto => 1

theorem resolveTimeNanos_eq_spec (precision : Precision) (ingestTimeNanos : Int)
    (lineTs : Option Int) :
    resolveTimeNanos precision ingestTimeNanos lineTs =
      specResolvedTimestamp precision ingestTimeNanos lineTs := by
  cases lineTs with
  | none => rfl
  | some ts =>
      cases precision <;>
        simp [resolveTimeNanos, specResolvedTimestamp, precisionMultiplier]

/-- Modelled from the spec: the external parser's output on
`"cpu bar=1 10"` — measurement `cpu`, no tags, one float field `bar` with
value 1.0 (IEEE-754 bits 0x3FF0000000000000 = 4607182418800017408), and
timestamp literal 10. -/
def parse_cpu_bar_10 : String → Except String ParsedLine := fun s =>
  if s = "cpu bar=1 10" then
    .ok ⟨"cpu", none, [("bar", .f64 4607182418800017408)], some 10⟩
  else .error "parse failure"

/-- **C4.** Timestamp resolution: every converted line's row carries the
time value prescribed by the spec rule (`ingest_time` when the line omits
a timestamp, otherwise the literal scaled by the effective precision's
nanosecond multiplier, `Auto` inferring from magnitude first); and the
scenario: writing `"cpu bar=1 10"` at nanosecond precision with ingest
time 123 ns yields exactly one row with `bar = 1.0` and time 10 ns after
the epoch. -/
theorem timestamp_resolution_rule :
    (∀ (line : ParsedLine) (raw : String) (st : ConvState) (ingest_time : Int)
        (segment_duration : SegmentDuration) (precision : Precision),
      ∃ tbm tb,
        smapFind?
            (validate_and_convert_parsed_line line raw st ingest_time
              segment_duration precision).segment_table_batches
            (bucketOfLine segment_duration precision ingest_time line) = some tbm ∧
        smapFind? tbm.table_batches line.measurement = some tb ∧
        tb.rows.getLast? = some (rowOfLine precision ingest_time line) ∧
        (rowOfLine precision ingest_time line).time =
          specResolvedTimestamp precision ingest_time line.timestamp) ∧
    parse_validate_and_update_schema parse_cpu_bar_10 "cpu bar=1 10"
        (DatabaseSchema.empty "foo") "foo" 123 SegmentDuration.new_5m false
        Precision.nanosecond =
      some (.ok
        { schema := some ⟨"foo", [("cpu", ⟨"cpu", [("bar", 3), ("time", 6)]⟩)]⟩
          line_count := 1
          field_count := 1
          tag_count := 0
          errors := []
          valid_segmented_data :=
            [{ database_name := "foo"
               segment_start := 0
               table_batches :=
                 [("cpu",
                   { name := ""
                     rows := [⟨10, [⟨"bar", .float 4607182418800017408⟩,
                                    ⟨"time", .timestamp 10⟩]⟩] })]
               wal_op := .lpWrite ⟨"foo", "cpu bar=1 10", 123⟩ }] }) := by
  constructor
  · intro line raw st ingest_time segment_duration precision
    rw [conv_unfold]
    refine ⟨_, _, smapFind?_modify_self _ _ _ _, smapFind?_modify_self _ _ _ _, ?_, ?_⟩
    · exact List.getLast?_concat _
    · exact resolveTimeNanos_eq_spec precision ingest_time line.timestamp
  · rfl

/-! ## C1 — type-conflicting field writes -/

/-- The schema holding table `cpu` with a `Float`-typed column `bar`
(plus its time column). -/
def cpuBarFloatSchema : DatabaseSchema :=
  ⟨"foo", [("cpu", ⟨"cpu", [("bar", ColumnType.f64.toCode),
                            ("time", ColumnType.time.toCode)]⟩)]⟩

/-- Modelled from the spec: the external parser's output on
`"cpu bar=1i"` — one integer field `bar`, no timestamp. -/
def parse_cpu_bar_int : String → Except String ParsedLine := fun s =>
  if s = "cpu bar=1i" then .ok ⟨"cpu", none, [("bar", .i64 1)], none⟩
  else .error "parse failure"

/-- **C1 (failing-input evaluation).** A field written under an existing
column name with a different underlying type does NOT yield a
`ColumnTypeMismatch` error in this code: `column_exists` tests the name
only and no type check is performed afterwards.  Concretely:
(a) writing `"cpu bar=1 10"` (float field `bar`) into an empty schema
produces `cpuBarFloatSchema`; (b) then validating `"cpu bar=1i"`
(integer field `bar`) against that schema returns `Ok` — with no error of
any kind, with the schema unmutated (`schema = none`, as the claim's
second half states), and with the type-conflicting row buffered as an
`Integer` value under the `Float` column. -/
theorem column_type_mismatch_not_raised :
    (validate_or_insert_schema_and_partitions
        [(⟨"cpu", none, [("bar", .f64 4607182418800017408)], some 10⟩, "cpu bar=1 10")]
        (DatabaseSchema.empty "foo") "foo" 123 SegmentDuration.new_5m
        Precision.nanosecond).schema = some cpuBarFloatSchema ∧
    parse_validate_and_update_schema parse_cpu_bar_int "cpu bar=1i"
        cpuBarFloatSchema "foo" 55 SegmentDuration.new_5m false
        Precision.nanosecond =
      some (.ok
        { schema := none
          line_count := 1
          field_count := 1
          tag_count := 0
          errors := []
          valid_segmented_data :=
            [{ database_name := "foo"
               segment_start := 0
               table_batches :=
                 [("cpu",
                   { name := ""
                     rows := [⟨55, [⟨"bar", .integer 1⟩,
                                    ⟨"time", .timestamp 55⟩]⟩] })]
               wal_op := .lpWrite ⟨"foo", "cpu bar=1i", 55⟩ }] }) := by
  constructor
  · decide
  · rfl

/-! ## Bucket-content characterization of `processLines` -/

/-- What one line adds to its bucket's `TableBatchMap`: the raw line text
appended to `lines`, and the line's row appended to its table's batch. -/
def addLineTBM (precision : Precision) (ingest_time : Int) (tbm : TableBatchMap)
    (l : ParsedLine) (r : String) : TableBatchMap :=
  { lines := tbm.lines ++ [r]
    table_batches :=
      smapModify tbm.table_batches l.measurement {}
        (fun tb => { tb with rows := tb.rows ++ [rowOfLine precision ingest_time l] }) }

/-- Fold `addLineTBM` over a list of lines. -/
def tbmExtend (precision : Precision) (ingest_time : Int) (init : TableBatchMap)
    (fs : List (ParsedLine × String)) : TableBatchMap :=
  fs.foldl (fun acc p => addLineTBM precision ingest_time acc p.1 p.2) init

/-- The lines of a batch that fall into bucket `b`. -/
def bucketLines (segment_duration : SegmentDuration) (precision : Precision)
    (ingest_time : Int) (b : Int) (ls : List (ParsedLine × String)) :
    List (ParsedLine × String) :=
  ls.filter (fun p => bucketOfLine segment_duration precision ingest_time p.1 == b)

/-- The lines of a batch whose measurement is `tn`. -/
def tableLines (tn : String) (fs : List (ParsedLine × String)) :
    List (ParsedLine × String) :=
  fs.filter (fun p => p.1.measurement == tn)

/-- The rows the given lines contribute. -/
def rowsOf (precision : Precision) (ingest_time : Int)
    (fs : List (ParsedLine × String)) : List Row :=
  fs.map (fun p => rowOfLine precision ingest_time p.1)

/-- `validate_and_convert_parsed_line` phrased through `addLineTBM`. -/
theorem conv_unfold2 (line : ParsedLine) (raw_line : String) (st : ConvState)
    (ingest_time : Int) (segment_duration : SegmentDuration) (precision : Precision) :
    validate_and_convert_parsed_line line raw_line st ingest_time segment_duration precision =
      { segment_table_batches :=
          smapModify st.segment_table_batches
            (bucketOfLine segment_duration precision ingest_time line) {}
            (fun tbm => addLineTBM precision ingest_time tbm line raw_line)
        schema := (updateSchemaForLine st.schema line).1
        owned := st.owned || (updateSchemaForLine st.schema line).2 } := rfl

/-- After processing a batch, the `TableBatchMap` stored under bucket `b`
is the initial one (if any) extended by exactly the batch's lines whose
bucket is `b`, in input order; a bucket no line touches stays absent. -/
theorem processLines_find? (ingest_time : Int) (segment_duration : SegmentDuration)
    (precision : Precision) (ls : List (ParsedLine × String)) (st : ConvState) (b : Int) :
    smapFind? (processLines ingest_time segment_duration precision st ls).segment_table_batches b =
      match smapFind? st.segment_table_batches b with
      | some tbm =>
          some (tbmExtend precision ingest_time tbm
            (bucketLines segment_duration precision ingest_time b ls))
      | none =>
          if (bucketLines segment_duration precision ingest_time b ls).isEmpty then none
          else some (tbmExtend precision ingest_time {}
            (bucketLines segment_duration precision ingest_time b ls)) := by
  induction ls generalizing st with
  | nil =>
      cases hf : smapFind? st.segment_table_batches b <;>
        simp [processLines, bucketLines, tbmExtend, hf]
  | cons p rest ih =>
      obtain ⟨l, r⟩ := p
      simp only [processLines]
      rw [ih]
      by_cases hb : bucketOfLine segment_duration precision ingest_time l = b
      · have hconv : smapFind?
            (validate_and_convert_parsed_line l r st ingest_time segment_duration
              precision).segment_table_batches b =
            some (addLineTBM precision ingest_time
              ((smapFind? st.segment_table_batches b).getD {}) l r) := by
          rw [conv_unfold2]
          show smapFind? (smapModify _ _ _ _) b = _
          rw [← hb]
          exact smapFind?_modify_self _ _ _ _
        rw [hconv]
        have hfil : bucketLines segment_duration precision ingest_time b ((l, r) :: rest) =
            (l, r) :: bucketLines segment_duration precision ingest_time b rest := by
          simp [bucketLines, List.filter_cons, hb]
        rw [hfil]
        cases hf : smapFind? st.segment_table_batches b with
        | some tbm => simp [tbmExtend, hf]
        | none => simp [tbmExtend, hf]
      · have hconv : smapFind?
            (validate_and_convert_parsed_line l r st ingest_time segment_duration
              precision).segment_table_batches b =
            smapFind? st.segment_table_batches b := by
          rw [conv_unfold2]
          exact smapFind?_modify_ne _ _ _ _ _ (fun hh => hb hh.symm)
        rw [hconv]
        have hfil : bucketLines segment_duration precision ingest_time b ((l, r) :: rest) =
            bucketLines segment_duration precision ingest_time b rest := by
          simp [bucketLines, List.filter_cons, hb]
        rw [hfil]

/-- The raw lines retained by a bucket's `TableBatchMap` are exactly the
raw source lines, in order. -/
theorem tbmExtend_lines (precision : Precision) (ingest_time : Int)
    (init : TableBatchMap) (fs : List (ParsedLine × String)) :
    (tbmExtend precision ingest_time init fs).lines = init.lines ++ fs.map Prod.snd := by
  induction fs generalizing init with
  | nil => simp [tbmExtend]
  | cons p rest ih =>
      simp [tbmExtend, List.foldl_cons] at ih ⊢
      rw [ih]
      simp [addLineTBM]

/-- The per-table batches of a bucket's `TableBatchMap`: each table holds
exactly the rows of the bucket's lines with that measurement, in order. -/
theorem tbmExtend_tb_find? (precision : Precision) (ingest_time : Int)
    (init : TableBatchMap) (fs : List (ParsedLine × String)) (tn : String) :
    smapFind? (tbmExtend precision ingest_time init fs).table_batches tn =
      match smapFind? init.table_batches tn with
      | some tb =>
          some { tb with rows := tb.rows ++ rowsOf precision ingest_time (tableLines tn fs) }
      | none =>
          if (tableLines tn fs).isEmpty then none
          else some ⟨"", rowsOf precision ingest_time (tableLines tn fs)⟩ := by
  induction fs generalizing init with
  | nil =>
      cases hf : smapFind? init.table_batches tn <;>
        simp [tbmExtend, tableLines, rowsOf, hf]
  | cons p rest ih =>
      obtain ⟨l, r⟩ := p
      simp only [tbmExtend, List.foldl_cons]
      rw [show (rest.foldl (fun acc q => addLineTBM precision ingest_time acc q.1 q.2)
            (addLineTBM precision ingest_time init l r)) =
          tbmExtend precision ingest_time (addLineTBM precision ingest_time init l r) rest
          from rfl]
      rw [ih]
      by_cases hm : l.measurement = tn
      · have hadd : smapFind? (addLineTBM precision ingest_time init l r).table_batches tn =
            some { (smapFind? init.table_batches tn).getD {} with
                    rows := ((smapFind? init.table_batches tn).getD {}).rows
                      ++ [rowOfLine precision ingest_time l] } := by
          show smapFind? (smapModify _ _ _ _) tn = _
          rw [← hm]
          exact smapFind?_modify_self _ _ _ _
        rw [hadd]
        have hfil : tableLines tn ((l, r) :: rest) = (l, r) :: tableLines tn rest := by
          simp [tableLines, List.filter_cons, hm]
        rw [hfil]
        cases hf : smapFind? init.table_batches tn with
        | some tb => simp [hf, rowsOf]
        | none => simp [hf, rowsOf]
      · have hadd : smapFind? (addLineTBM precision ingest_time init l r).table_batches tn =
            smapFind? init.table_batches tn := by
          show smapFind? (smapModify _ _ _ _) tn = _
          exact smapFind?_modify_ne _ _ _ _ _ (fun hh => hm hh.symm)
        rw [hadd]
        have hfil : tableLines tn ((l, r) :: rest) = tableLines tn rest := by
          simp [tableLines, List.filter_cons, hm]
        rw [hfil]

/-- Bucket keys stay unique through processing. -/
theorem processLines_segTB_nodup (ingest_time : Int) (segment_duration : SegmentDuration)
    (precision : Precision) (ls : List (ParsedLine × String)) (st : ConvState)
    (h : (smapKeys st.segment_table_batches).Nodup) :
    (smapKeys (processLines ingest_time segment_duration precision st ls).segment_table_batches).Nodup := by
  induction ls generalizing st with
  | nil => simpa [processLines]
  | cons p rest ih =>
      obtain ⟨l, r⟩ := p
      simp only [processLines]
      apply ih
      rw [conv_unfold2]
      exact nodup_smapKeys_modify _ _ _ _ h

/-! ## Row accounting (C2) -/

/-- Total rows stored in a bucket's `TableBatchMap`. -/
def tbmRowCount (tbm : TableBatchMap) : Nat :=
  (tbm.table_batches.map (fun p => p.2.rows.length)).sum

/-- Total rows stored across all buckets of the conversion state. -/
def stRowCount (st : ConvState) : Nat :=
  (st.segment_table_batches.map (fun p => tbmRowCount p.2)).sum

/-- Total rows placed into valid table batches across a validation
result's `ValidSegmentedData` values. -/
def totalRows (r : ValidationResult) : Nat :=
  (r.valid_segmented_data.map
    (fun v => (v.table_batches.map (fun p => p.2.rows.length)).sum)).sum

theorem addLineTBM_rowCount (precision : Precision) (ingest_time : Int)
    (tbm : TableBatchMap) (l : ParsedLine) (r : String) :
    tbmRowCount (addLineTBM precision ingest_time tbm l r) = tbmRowCount tbm + 1 := by
  have h := sum_smapModify (fun (tb : TableBatch) => tb.rows.length)
    tbm.table_batches l.measurement {}
    (fun tb => { tb with rows := tb.rows ++ [rowOfLine precision ingest_time l] })
    (by simp) rfl
  simpa [addLineTBM, tbmRowCount] using h

theorem conv_rowCount (line : ParsedLine) (raw : String) (st : ConvState)
    (ingest_time : Int) (segment_duration : SegmentDuration) (precision : Precision) :
    stRowCount (validate_and_convert_parsed_line line raw st ingest_time
      segment_duration precision) = stRowCount st + 1 := by
  rw [conv_unfold2]
  have h := sum_smapModify (fun (tbm : TableBatchMap) => tbmRowCount tbm)
    st.segment_table_batches
    (bucketOfLine segment_duration precision ingest_time line) {}
    (fun tbm => addLineTBM precision ingest_time tbm line raw)
    (addLineTBM_rowCount precision ingest_time _ line raw) rfl
  simpa [stRowCount] using h

theorem processLines_rowCount (ingest_time : Int) (segment_duration : SegmentDuration)
    (precision : Precision) (ls : List (ParsedLine × String)) (st : ConvState) :
    stRowCount (processLines ingest_time segment_duration precision st ls) =
      stRowCount st + ls.length := by
  induction ls generalizing st with
  | nil => simp [processLines]
  | cons p rest ih =>
      obtain ⟨l, r⟩ := p
      simp only [processLines]
      rw [ih, conv_rowCount, List.length_cons]
      omega

theorem totalRows_validate_or_insert (lines : List (ParsedLine × String))
    (schema : DatabaseSchema) (db_name : String) (ingest_time : Int)
    (segment_duration : SegmentDuration) (precision : Precision) :
    totalRows (validate_or_insert_schema_and_partitions lines schema db_name
      ingest_time segment_duration precision) = lines.length := by
  have h := processLines_rowCount ingest_time segment_duration precision lines
    ⟨[], schema, false⟩
  have h0 : stRowCount ⟨[], schema, false⟩ = 0 := rfl
  rw [h0, Nat.zero_add] at h
  unfold totalRows validate_or_insert_schema_and_partitions
  dsimp only
  rw [List.map_map]
  exact h

/-! ## The line-collection loop (C2, C10) -/

theorem collect_counts (ap : Bool) (items : List (Except String ParsedLine)) :
    ∀ (raws : List String) (i : Nat) (v : List (ParsedLine × String))
      (e : List WriteLineError),
    collectValidLines ap items raws i = some (.ok (v, e)) →
      v.length + e.length = items.length := by
  induction items with
  | nil =>
      intro raws i v e h
      simp [collectValidLines] at h
      obtain ⟨h1, h2⟩ := h
      simp [← h1, ← h2]
  | cons it rest ih =>
      intro raws i v e h
      cases it with
      | ok line =>
          cases raws with
          | nil => simp [collectValidLines] at h
          | cons r raws' =>
              rw [show collectValidLines ap (Except.ok line :: rest) (r :: raws') i =
                  (collectValidLines ap rest raws' (i + 1)).map
                    (fun res => res.map (fun vr => ((line, r) :: vr.1, vr.2))) from rfl] at h
              cases hrec : collectValidLines ap rest raws' (i + 1) with
              | none => rw [hrec] at h; exact absurd h (by simp)
              | some res =>
                  rw [hrec] at h
                  cases res with
                  | error w => simp [Except.map] at h
                  | ok pr =>
                      simp [Except.map] at h
                      obtain ⟨h1, h2⟩ := h
                      have hlen := ih raws' (i + 1) pr.1 pr.2 (by rw [hrec])
                      rw [List.length_cons, ← h1, ← h2, List.length_cons]
                      omega
      | error msg =>
          cases raws with
          | nil => simp [collectValidLines] at h
          | cons r raws' =>
              cases ap with
              | false =>
                  rw [show collectValidLines false (Except.error msg :: rest) (r :: raws') i =
                      some (.error ⟨r, i + 1, msg⟩) from rfl] at h
                  exact absurd h (by simp)
              | true =>
                  rw [show collectValidLines true (Except.error msg :: rest) (r :: raws') i =
                      (collectValidLines true rest raws' (i + 1)).map
                        (fun res => res.map
                          (fun vr => (vr.1, ⟨r, i + 1, msg⟩ :: vr.2))) from rfl] at h
                  cases hrec : collectValidLines true rest raws' (i + 1) with
                  | none => rw [hrec] at h; exact absurd h (by simp)
                  | some res =>
                      rw [hrec] at h
                      cases res with
                      | error w => simp [Except.map] at h
                      | ok pr =>
                          simp [Except.map] at h
                          obtain ⟨h1, h2⟩ := h
                          have hlen := ih raws' (i + 1) pr.1 pr.2 (by rw [hrec])
                          rw [List.length_cons, ← h1, ← h2, List.length_cons]
                          omega

theorem collect_ne_none (ap : Bool) (items : List (Except String ParsedLine)) :
    ∀ (raws : List String) (i : Nat), items.length ≤ raws.length →
      collectValidLines ap items raws i ≠ none := by
  induction items with
  | nil => intro raws i _; simp [collectValidLines]
  | cons it rest ih =>
      intro raws i hlen
      cases raws with
      | nil => simp at hlen
      | cons r raws' =>
          have hlen' : rest.length ≤ raws'.length := by
            simpa [List.length_cons] using hlen
          cases it with
          | ok line =>
              rw [show collectValidLines ap (Except.ok line :: rest) (r :: raws') i =
                  (collectValidLines ap rest raws' (i + 1)).map
                    (fun res => res.map (fun vr => ((line, r) :: vr.1, vr.2))) from rfl]
              cases hrec : collectValidLines ap rest raws' (i + 1) with
              | none => exact absurd hrec (ih raws' (i + 1) hlen')
              | some res => simp
          | error msg =>
              cases ap with
              | false =>
                  rw [show collectValidLines false (Except.error msg :: rest) (r :: raws') i =
                      some (.error ⟨r, i + 1, msg⟩) from rfl]
                  simp
              | true =>
                  rw [show collectValidLines true (Except.error msg :: rest) (r :: raws') i =
                      (collectValidLines true rest raws' (i + 1)).map
                        (fun res => res.map
                          (fun vr => (vr.1, ⟨r, i + 1, msg⟩ :: vr.2))) from rfl]
                  cases hrec : collectValidLines true rest raws' (i + 1) with
                  | none => exact absurd hrec (ih raws' (i + 1) hlen')
                  | some res => simp

theorem collect_error_lines (ap : Bool) (items : List (Except String ParsedLine)) :
    ∀ (raws : List String) (i : Nat) (v : List (ParsedLine × String))
      (e : List WriteLineError),
    collectValidLines ap items raws i = some (.ok (v, e)) →
      ∀ err ∈ e, ∃ j, err.line_number = i + j + 1 ∧ raws[j]? = some err.original_line := by
  induction items with
  | nil =>
      intro raws i v e h
      simp [collectValidLines] at h
      obtain ⟨h1, h2⟩ := h
      subst h2
      simp
  | cons it rest ih =>
      intro raws i v e h
      cases it with
      | ok line =>
          cases raws with
          | nil => simp [collectValidLines] at h
          | cons r raws' =>
              rw [show collectValidLines ap (Except.ok line :: rest) (r :: raws') i =
                  (collectValidLines ap rest raws' (i + 1)).map
                    (fun res => res.map (fun vr => ((line, r) :: vr.1, vr.2))) from rfl] at h
              cases hrec : collectValidLines ap rest raws' (i + 1) with
              | none => rw [hrec] at h; exact absurd h (by simp)
              | some res =>
                  rw [hrec] at h
                  cases res with
                  | error w => simp [Except.map] at h
                  | ok pr =>
                      simp [Except.map] at h
                      obtain ⟨h1, h2⟩ := h
                      intro err herr
                      obtain ⟨j, hj1, hj2⟩ :=
                        ih raws' (i + 1) pr.1 pr.2 (by rw [hrec]) err (h2 ▸ herr)
                      exact ⟨j + 1, by omega, by simpa using hj2⟩
      | error msg =>
          cases raws with
          | nil => simp [collectValidLines] at h
          | cons r raws' =>
              cases ap with
              | false =>
                  rw [show collectValidLines false (Except.error msg :: rest) (r :: raws') i =
                      some (.error ⟨r, i + 1, msg⟩) from rfl] at h
                  exact absurd h (by simp)
              | true =>
                  rw [show collectValidLines true (Except.error msg :: rest) (r :: raws') i =
                      (collectValidLines true rest raws' (i + 1)).map
                        (fun res => res.map
                          (fun vr => (vr.1, ⟨r, i + 1, msg⟩ :: vr.2))) from rfl] at h
                  cases hrec : collectValidLines true rest raws' (i + 1) with
                  | none => rw [hrec] at h; exact absurd h (by simp)
                  | some res =>
                      rw [hrec] at h
                      cases res with
                      | error w => simp [Except.map] at h
                      | ok pr =>
                          simp [Except.map] at h
                          obtain ⟨h1, h2⟩ := h
                          intro err herr
                          rw [← h2] at herr
                          rcases List.mem_cons.mp herr with hhead | htail
                          · subst hhead
                            exact ⟨0, by simp, by simp⟩
                          · obtain ⟨j, hj1, hj2⟩ :=
                              ih raws' (i + 1) pr.1 pr.2 (by rw [hrec]) err htail
                            exact ⟨j + 1, by omega, by simpa using hj2⟩

/-- **C2.** With `accept_partial` enabled, every successful call accounts
for every non-empty input line exactly once: the number of rows placed
into valid table batches plus the number of `WriteLineError` entries in
the returned error list equals the number of non-empty input lines. -/
theorem accept_partial_line_accounting (parse1 : String → Except String ParsedLine)
    (lp : String) (schema : DatabaseSchema) (db_name : String) (ingest_time : Int)
    (segment_duration : SegmentDuration) (precision : Precision) (r : ValidationResult)
    (h : parse_validate_and_update_schema parse1 lp schema db_name ingest_time
      segment_duration true precision = some (.ok r)) :
    totalRows r + r.errors.length =
      ((strLines lp).filter (fun l => l != "")).length := by
  unfold parse_validate_and_update_schema at h
  cases hcol : collectValidLines true (parse_lines parse1 lp) (strLines lp) 0 with
  | none => rw [hcol] at h; exact absurd h (by simp)
  | some res =>
      rw [hcol] at h
      cases res with
      | error w => exact absurd h (by simp)
      | ok vr =>
          have h1 := Option.some.inj h
          have h2 := Except.ok.inj h1
          subst h2
          show totalRows (validate_or_insert_schema_and_partitions vr.1 schema db_name
            ingest_time segment_duration precision) + vr.2.length = _
          rw [totalRows_validate_or_insert]
          have hcount := collect_counts true (parse_lines parse1 lp) (strLines lp) 0
            vr.1 vr.2 (by rw [hcol])
          rw [hcount]
          unfold parse_lines
          rw [List.length_map]

/-- The concrete result of validating `"good\n\nbad"` (one valid line,
one empty line, one malformed line) with `accept_partial` against an
empty schema, with a parser accepting exactly `"good"`. -/
def c2Result : ValidationResult :=
  { schema := some ⟨"db", [("m", ⟨"m", [("f", 1), ("time", 6)]⟩)]⟩
    line_count := 1
    field_count := 1
    tag_count := 0
    errors := [⟨"", 2, "bad input"⟩]
    valid_segmented_data :=
      [{ database_name := "db"
         segment_start := 0
         table_batches :=
           [("m", { name := ""
                    rows := [⟨5, [⟨"f", .integer 1⟩, ⟨"time", .timestamp 5⟩]⟩] })]
         wal_op := .lpWrite ⟨"db", "good", 0⟩ }] }

/-- Modelled from the spec: a parser accepting exactly the line
`"good"`. -/
def parse_good_only : String → Except String ParsedLine := fun s =>
  if s = "good" then .ok ⟨"m", none, [("f", .i64 1)], some 5⟩
  else .error "bad input"

/-- Concrete instantiation of `accept_partial_line_accounting`:
input `"good\n\nbad"` has two non-empty lines; the result holds one
buffered row and one reported error. -/
theorem accept_partial_line_accounting_witness :
    totalRows c2Result + c2Result.errors.length =
      ((strLines "good\n\nbad").filter (fun l => l != "")).length :=
  accept_partial_line_accounting parse_good_only "good\n\nbad"
    (DatabaseSchema.empty "db") "db" 0 SegmentDuration.new_5m
    Precision.nanosecond c2Result (by rfl)

/-! ## C5 and C8 — bucket partitioning and verbatim WAL payloads -/

/-- **C5.** Rows are segmented by time bucket: each validated line lands
in the bucket `SegmentDuration.start_time(t / 1e9)` of its resolved
timestamp `t` (that is `bucketOfLine`); the validation result holds
exactly one `ValidSegmentedData` per distinct bucket start touched by the
batch (`Nodup` + coverage), and each batch holds, per table, exactly the
rows of the batch's lines that fall in that bucket, grouped by
measurement, in input order. -/
theorem segment_bucket_partitioning (lines : List (ParsedLine × String))
    (schema : DatabaseSchema) (db_name : String) (ingest_time : Int)
    (segment_duration : SegmentDuration) (precision : Precision) :
    ((validate_or_insert_schema_and_partitions lines schema db_name ingest_time
        segment_duration precision).valid_segmented_data.map
          ValidSegmentedData.segment_start).Nodup ∧
    (∀ b : Int,
      b ∈ (validate_or_insert_schema_and_partitions lines schema db_name ingest_time
        segment_duration precision).valid_segmented_data.map
          ValidSegmentedData.segment_start ↔
      ∃ p ∈ lines, bucketOfLine segment_duration precision ingest_time p.1 = b) ∧
    (∀ v ∈ (validate_or_insert_schema_and_partitions lines schema db_name ingest_time
        segment_duration precision).valid_segmented_data, ∀ tn : String,
      smapFind? v.table_batches tn =
        if (tableLines tn (bucketLines segment_duration precision ingest_time
            v.segment_start lines)).isEmpty then none
        else some ⟨"", rowsOf precision ingest_time
          (tableLines tn (bucketLines segment_duration precision ingest_time
            v.segment_start lines))⟩) := by
  have hstarts : (validate_or_insert_schema_and_partitions lines schema db_name
      ingest_time segment_duration precision).valid_segmented_data.map
        ValidSegmentedData.segment_start =
      smapKeys (processLines ingest_time segment_duration precision
        ⟨[], schema, false⟩ lines).segment_table_batches := by
    unfold validate_or_insert_schema_and_partitions
    dsimp only
    rw [List.map_map]
    rfl
  have hnodup : (smapKeys (processLines ingest_time segment_duration precision
      ⟨[], schema, false⟩ lines).segment_table_batches).Nodup :=
    processLines_segTB_nodup _ _ _ _ _ (by simp [smapKeys])
  have hfind := fun b => processLines_find? ingest_time segment_duration precision
    lines ⟨[], schema, false⟩ b
  have hinit : ∀ b : Int,
      smapFind? (⟨[], schema, false⟩ : ConvState).segment_table_batches b = none :=
    fun _ => rfl
  refine ⟨hstarts ▸ hnodup, ?_, ?_⟩
  · intro b
    rw [hstarts, ← smapFind?_isSome_iff_mem, hfind b, hinit b]
    by_cases hemp : (bucketLines segment_duration precision ingest_time b lines).isEmpty
    · simp only [hemp, if_true]
      have : bucketLines segment_duration precision ingest_time b lines = [] :=
        List.isEmpty_iff.mp hemp
      constructor
      · intro hcontra; simp at hcontra
      · rintro ⟨p, hp, hpb⟩
        have : p ∈ bucketLines segment_duration precision ingest_time b lines := by
          simp [bucketLines, List.mem_filter, hp, hpb]
        rw [List.isEmpty_iff.mp hemp] at this
        simp at this
    · simp only [hemp, if_false]
      have hne : bucketLines segment_duration precision ingest_time b lines ≠ [] := by
        intro hc; rw [hc] at hemp; simp at hemp
      constructor
      · intro _
        obtain ⟨p, hp⟩ := List.exists_mem_of_ne_nil _ hne
        have := List.mem_filter.mp hp
        exact ⟨p, this.1, by simpa using this.2⟩
      · intro _; simp
  · intro v hv tn
    have hv' : v ∈ (processLines ingest_time segment_duration precision
        ⟨[], schema, false⟩ lines).segment_table_batches.map
          (fun p => ({ database_name := db_name
                       segment_start := p.1
                       table_batches := p.2.table_batches
                       wal_op := .lpWrite ⟨db_name, joinWithNewline p.2.lines,
                         ingest_time⟩ } : ValidSegmentedData)) := hv
    obtain ⟨p, hpmem, hpv⟩ := List.mem_map.mp hv'
    have hpfind : smapFind? (processLines ingest_time segment_duration precision
        ⟨[], schema, false⟩ lines).segment_table_batches p.1 = some p.2 :=
      smapFind?_eq_of_mem_nodup _ _ _ hnodup hpmem
    rw [hfind p.1, hinit p.1] at hpfind
    by_cases hemp : (bucketLines segment_duration precision ingest_time p.1 lines).isEmpty
    · rw [if_pos hemp] at hpfind
      exact absurd hpfind (by simp)
    · rw [if_neg hemp] at hpfind
      have hp2 : p.2 = tbmExtend precision ingest_time {}
          (bucketLines segment_duration precision ingest_time p.1 lines) :=
        (Option.some.inj hpfind).symm
      have hvstart : v.segment_start = p.1 := by rw [← hpv]
      have hvtb : v.table_batches = p.2.table_batches := by rw [← hpv]
      rw [hvtb, hvstart, hp2, tbmExtend_tb_find?]
      rfl

/-- The batch used to instantiate the partitioning theorems: two lines
falling into distinct five-minute buckets (timestamps 10 ns and 400 s). -/
def cLines : List (ParsedLine × String) :=
  [(⟨"cpu", none, [("a", .i64 1)], some 10⟩, "cpu a=1i 10"),
   (⟨"mem", none, [("b", .i64 2)], some 400000000000⟩, "mem b=2i 400000000000")]

/-- The second `ValidSegmentedData` produced for `cLines`: the bucket
starting at 300 s holding the `mem` row. -/
def cSegMem : ValidSegmentedData :=
  { database_name := "db"
    segment_start := 300000000000
    table_batches :=
      [("mem", { name := ""
                 rows := [⟨400000000000, [⟨"b", .integer 2⟩,
                                          ⟨"time", .timestamp 400000000000⟩]⟩] })]
    wal_op := .lpWrite ⟨"db", "mem b=2i 400000000000", 0⟩ }

/-- Concrete instantiation of `segment_bucket_partitioning`: in the
two-bucket batch `cLines`, the bucket starting at 300 s holds exactly the
`mem` row. -/
theorem segment_bucket_partitioning_witness :
    smapFind? cSegMem.table_batches "mem" =
      some ⟨"", rowsOf Precision.nanosecond 0
        (tableLines "mem" (bucketLines SegmentDuration.new_5m Precision.nanosecond 0
          cSegMem.segment_start cLines))⟩ := by
  have h := (segment_bucket_partitioning cLines (DatabaseSchema.empty "db") "db" 0
    SegmentDuration.new_5m Precision.nanosecond).2.2 cSegMem (by decide) "mem"
  rw [h]
  rfl

/-- **C8.** The WAL operation built for each segment bucket stores the
original line-protocol text verbatim: every `ValidSegmentedData`'s
`LpWriteOp` payload is exactly the raw source lines assigned to that
bucket, in input order, joined with single newline characters. -/
theorem wal_op_stores_verbatim_lines (lines : List (ParsedLine × String))
    (schema : DatabaseSchema) (db_name : String) (ingest_time : Int)
    (segment_duration : SegmentDuration) (precision : Precision) :
    ∀ v ∈ (validate_or_insert_schema_and_partitions lines schema db_name ingest_time
        segment_duration precision).valid_segmented_data,
      v.wal_op = .lpWrite ⟨db_name,
        joinWithNewline ((bucketLines segment_duration precision ingest_time
          v.segment_start lines).map Prod.snd),
        ingest_time⟩ := by
  intro v hv
  have hnodup : (smapKeys (processLines ingest_time segment_duration precision
      ⟨[], schema, false⟩ lines).segment_table_batches).Nodup :=
    processLines_segTB_nodup _ _ _ _ _ (by simp [smapKeys])
  have hv' : v ∈ (processLines ingest_time segment_duration precision
      ⟨[], schema, false⟩ lines).segment_table_batches.map
        (fun p => ({ database_name := db_name
                     segment_start := p.1
                     table_batches := p.2.table_batches
                     wal_op := .lpWrite ⟨db_name, joinWithNewline p.2.lines,
                       ingest_time⟩ } : ValidSegmentedData)) := hv
  obtain ⟨p, hpmem, hpv⟩ := List.mem_map.mp hv'
  have hpfind : smapFind? (processLines ingest_time segment_duration precision
      ⟨[], schema, false⟩ lines).segment_table_batches p.1 = some p.2 :=
    smapFind?_eq_of_mem_nodup _ _ _ hnodup hpmem
  rw [processLines_find?, show smapFind? (⟨[], schema, false⟩ : ConvState).segment_table_batches p.1 = none from rfl] at hpfind
  by_cases hemp : (bucketLines segment_duration precision ingest_time p.1 lines).isEmpty
  · rw [if_pos hemp] at hpfind
    exact absurd hpfind (by simp)
  · rw [if_neg hemp] at hpfind
    have hp2 : p.2 = tbmExtend precision ingest_time {}
        (bucketLines segment_duration precision ingest_time p.1 lines) :=
      (Option.some.inj hpfind).symm
    have hvstart : v.segment_start = p.1 := by rw [← hpv]
    have hvwal : v.wal_op = .lpWrite ⟨db_name, joinWithNewline p.2.lines,
        ingest_time⟩ := by rw [← hpv]
    rw [hvwal, hvstart, hp2, tbmExtend_lines]
    rfl

/-- Concrete instantiation of `wal_op_stores_verbatim_lines`: the 300 s
bucket's WAL payload is exactly the raw text of its single line. -/
theorem wal_op_stores_verbatim_lines_witness :
    cSegMem.wal_op = .lpWrite ⟨"db", "mem b=2i 400000000000", 0⟩ := by
  have h := wal_op_stores_verbatim_lines cLines (DatabaseSchema.empty "db") "db" 0
    SegmentDuration.new_5m Precision.nanosecond cSegMem (by decide)
  rw [h]
  rfl

/-! ## C10 — the unwrap sites and error-line alignment -/

/-- **C10 (amended).** The three `lp_lines.next().unwrap()` sites never
panic: `parse_lines` yields at most one result per raw input line (it
skips empty ones), so the side iterator cannot be exhausted early.  Each
reported `WriteLineError` carries `line_number` equal to the parser
result's 1-based index, and `original_line` equal to the raw input line
at that same position counted over ALL lines — including empty ones —
which is the text of the line the parser actually erred on exactly when
no earlier input line was empty. -/
theorem unwrap_sites_never_panic (parse1 : String → Except String ParsedLine)
    (lp : String) (schema : DatabaseSchema) (db_name : String) (ingest_time : Int)
    (segment_duration : SegmentDuration) (ap : Bool) (precision : Precision) :
    parse_validate_and_update_schema parse1 lp schema db_name ingest_time
      segment_duration ap precision ≠ none ∧
    (∀ r : ValidationResult,
      parse_validate_and_update_schema parse1 lp schema db_name ingest_time
        segment_duration ap precision = some (.ok r) →
      ∀ err ∈ r.errors,
        1 ≤ err.line_number ∧
        (strLines lp)[err.line_number - 1]? = some err.original_line) := by
  have hlen : (parse_lines parse1 lp).length ≤ (strLines lp).length := by
    unfold parse_lines
    rw [List.length_map]
    exact List.length_filter_le _ _
  constructor
  · unfold parse_validate_and_update_schema
    have hne := collect_ne_none ap (parse_lines parse1 lp) (strLines lp) 0 hlen
    cases hcol : collectValidLines ap (parse_lines parse1 lp) (strLines lp) 0 with
    | none => exact absurd hcol hne
    | some res => cases res <;> simp
  · intro r h err herr
    unfold parse_validate_and_update_schema at h
    cases hcol : collectValidLines ap (parse_lines parse1 lp) (strLines lp) 0 with
    | none => rw [hcol] at h; exact absurd h (by simp)
    | some res =>
        rw [hcol] at h
        cases res with
        | error w => exact absurd h (by simp)
        | ok vr =>
            have h1 := Option.some.inj h
            have h2 := Except.ok.inj h1
            have herr' : err ∈ vr.2 := by
              rw [← h2] at herr
              exact herr
            obtain ⟨j, hj1, hj2⟩ := collect_error_lines ap (parse_lines parse1 lp)
              (strLines lp) 0 vr.1 vr.2 (by rw [hcol]) err herr'
            constructor
            · omega
            · have hj : err.line_number - 1 = j := by omega
              rw [hj]
              exact hj2

/-- Modelled from the spec: a parser rejecting exactly the line
`"bad"`. -/
def parse_bad_only : String → Except String ParsedLine := fun s =>
  if s = "bad" then .error "bad line"
  else .ok ⟨"t", none, [("f", .i64 1)], some 1⟩

/-- The result of validating `"\nbad"` (an empty first line, then a
malformed line) with `accept_partial` enabled. -/
def c10Result : ValidationResult :=
  { schema := none
    line_count := 0
    field_count := 0
    tag_count := 0
    errors := [⟨"", 1, "bad line"⟩]
    valid_segmented_data := [] }

/-- **C10 (counterexample).** On input `"\nbad"` the only non-empty line
— the line `parse_lines` produced its error for — is `"bad"` (raw line
2), yet the reported error carries `original_line = ""` (the empty raw
line 1) and `line_number = 1`: the claimed correspondence between a
reported error and the offending input line fails as soon as an empty
line precedes a malformed one. -/
theorem unwrap_alignment_counterexample :
    parse_validate_and_update_schema parse_bad_only "\nbad"
        (DatabaseSchema.empty "db") "db" 0 SegmentDuration.new_5m true
        Precision.nanosecond = some (.ok c10Result) ∧
    (strLines "\nbad").filter (fun l => l != "") = ["bad"] ∧
    parse_bad_only "bad" = .error "bad line" ∧
    c10Result.errors.map WriteLineError.original_line = [""] ∧
    ("" : String) ≠ "bad" :=
  ⟨rfl, rfl, rfl, rfl, by decide⟩

/-- Concrete instantiation of `unwrap_sites_never_panic`: on `"\nbad"`
the reported error's `original_line` is the raw line at its
`line_number` position — the empty line. -/
theorem unwrap_sites_never_panic_witness :
    (strLines "\nbad")[0]? = some "" := by
  have h := (unwrap_sites_never_panic parse_bad_only "\nbad"
    (DatabaseSchema.empty "db") "db" 0 SegmentDuration.new_5m true
    Precision.nanosecond).2 c10Result rfl ⟨"", 1, "bad line"⟩ (by simp [c10Result])
  exact h.2

/-! ## C3 — failed validation leaves the catalog unchanged -/

/-- **C3.** `parse_validate_and_update_catalog` installs an updated
schema via `replace_database` only after the whole validation has
succeeded: whenever the call returns an error, the catalog — for a
database that already exists — is left exactly as it was before the
call. -/
theorem catalogStep_error (c1 : Catalog) (db_name : String) (sequence : Nat)
    (pres : Option (Except Error ValidationResult)) (e : Error)
    (h : (catalogStep c1 db_name sequence pres).2 = some (.error e)) :
    (catalogStep c1 db_name sequence pres).1 = c1 := by
  cases pres with
  | none => rfl
  | some res =>
      cases res with
      | error e' => rfl
      | ok result =>
          obtain ⟨rs, rlc, rfc, rtc, rerr, rvsd⟩ := result
          cases rs with
          | none => rfl
          | some schema =>
              unfold catalogStep at h ⊢
              dsimp only at h ⊢
              generalize c1.replace_database db_name sequence schema = rep at h ⊢
              cases rep with
              | ok c2 => exact absurd h (by simp)
              | error ce => rfl

/-- **C3.** `parse_validate_and_update_catalog` installs an updated
schema via `replace_database` only after the whole validation has
succeeded: whenever the call returns an error, the catalog — for a
database that already exists — is left exactly as it was before the
call. -/
theorem failed_validation_leaves_catalog_unchanged
    (parse1 : String → Except String ParsedLine) (db_name lp : String)
    (c : Catalog) (ingest_time : Int) (segment_duration : SegmentDuration)
    (ap : Bool) (precision : Precision) (e : Error)
    (hdb : (smapFind? c.databases db_name).isSome)
    (herr : (parse_validate_and_update_catalog parse1 db_name lp c ingest_time
      segment_duration ap precision).2 = some (.error e)) :
    (parse_validate_and_update_catalog parse1 db_name lp c ingest_time
      segment_duration ap precision).1 = c := by
  obtain ⟨sdb, hsdb⟩ := Option.isSome_iff_exists.mp hdb
  have hdoc : c.db_or_create db_name = (sdb, c) := by
    unfold Catalog.db_or_create
    rw [hsdb]
  have heq : parse_validate_and_update_catalog parse1 db_name lp c ingest_time
      segment_duration ap precision =
      catalogStep c db_name sdb.1
        (parse_validate_and_update_schema parse1 lp sdb.2 db_name ingest_time
          segment_duration ap precision) := by
    unfold parse_validate_and_update_catalog
    rw [hdoc]
  rw [heq] at herr ⊢
  exact catalogStep_error c db_name sdb.1 _ e herr

/-- A catalog already holding database `"db"`. -/
def c3Catalog : Catalog := ⟨[("db", (0, DatabaseSchema.empty "db"))]⟩

/-- Concrete instantiation of
`failed_validation_leaves_catalog_unchanged`: a malformed write with
`accept_partial` disabled errors out and leaves `c3Catalog` untouched. -/
theorem failed_validation_leaves_catalog_unchanged_witness :
    (parse_validate_and_update_catalog parse_bad_only "db" "bad" c3Catalog 0
      SegmentDuration.new_5m false Precision.nanosecond).1 = c3Catalog :=
  failed_validation_leaves_catalog_unchanged parse_bad_only "db" "bad" c3Catalog 0
    SegmentDuration.new_5m false Precision.nanosecond
    (.parseError ⟨"bad", 1, "bad line"⟩) (by rfl) (by rfl)

/-! ## Schema-growth lemmas (C6, C7) -/

/-- The tag keys of a parsed line. -/
def lineTagKeys (line : ParsedLine) : List String :=
  (line.tag_set.getD []).map Prod.fst

/-- The field names of a parsed line. -/
def lineFieldKeys (line : ParsedLine) : List String :=
  line.field_set.map Prod.fst

/-- A line whose tag keys, field names and the time column name are
pairwise distinct (the shape the external parser produces for ordinary
input). -/
def wellFormedLine (line : ParsedLine) : Prop :=
  (lineTagKeys line ++ lineFieldKeys line ++ [TIME_COLUMN_NAME]).Nodup

instance (line : ParsedLine) : Decidable (wellFormedLine line) := by
  unfold wellFormedLine
  infer_instance

theorem column_exists_add_columns (t : TableDefinition)
    (cols : List (String × Int)) (c : String) :
    (t.add_columns cols).column_exists c = true ↔
      t.column_exists c = true ∨ c ∈ cols.map Prod.fst := by
  unfold TableDefinition.add_columns TableDefinition.column_exists
  exact smapFind?_foldl_insert_isSome_iff cols t.columns c

theorem mem_lineNewCols_keys (t : TableDefinition) (line : ParsedLine) (c : String) :
    c ∈ (lineNewCols t line).map Prod.fst ↔
      (c ∈ lineTagKeys line ∨ c ∈ lineFieldKeys line) ∧ t.column_exists c = false := by
  unfold lineNewCols lineTagKeys lineFieldKeys
  simp only [List.map_append, List.mem_append, List.map_map, List.mem_map,
    Function.comp_apply, List.mem_filter, Bool.not_eq_true']
  constructor
  · rintro (⟨p, ⟨hp, hq⟩, rfl⟩ | ⟨p, ⟨hp, hq⟩, rfl⟩)
    · exact ⟨Or.inl ⟨p, hp, rfl⟩, hq⟩
    · exact ⟨Or.inr ⟨p, hp, rfl⟩, hq⟩
  · rintro ⟨hmem | hmem, hnex⟩
    · obtain ⟨p, hp, rfl⟩ := hmem
      exact Or.inl ⟨p, ⟨hp, hnex⟩, rfl⟩
    · obtain ⟨p, hp, rfl⟩ := hmem
      exact Or.inr ⟨p, ⟨hp, hnex⟩, rfl⟩

theorem tagsFold_isSome (tags : List (String × String)) (m : List (String × Int))
    (k : String) :
    (smapFind? (tags.foldl (fun acc p => smapInsert acc p.1 ColumnType.tag.toCode) m)
      k).isSome ↔ (smapFind? m k).isSome ∨ k ∈ tags.map Prod.fst := by
  induction tags generalizing m with
  | nil => simp
  | cons p rest ih =>
      simp only [List.foldl_cons, ih, smapInsert_isSome_iff, List.map_cons,
        List.mem_cons]
      tauto

theorem fieldsFold_isSome (fields : List (String × FieldValue))
    (m : List (String × Int)) (k : String) :
    (smapFind? (fields.foldl
      (fun acc p => smapInsert acc p.1 (column_type_from_field p.2).toCode) m)
      k).isSome ↔ (smapFind? m k).isSome ∨ k ∈ fields.map Prod.fst := by
  induction fields generalizing m with
  | nil => simp
  | cons p rest ih =>
      simp only [List.foldl_cons, ih, smapInsert_isSome_iff, List.map_cons,
        List.mem_cons]
      tauto

theorem nodup_tagsFold (tags : List (String × String)) (m : List (String × Int))
    (h : (smapKeys m).Nodup) :
    (smapKeys (tags.foldl (fun acc p => smapInsert acc p.1 ColumnType.tag.toCode)
      m)).Nodup := by
  induction tags generalizing m with
  | nil => simpa
  | cons p rest ih => exact ih _ (nodup_smapKeys_insert m p.1 _ h)

theorem nodup_fieldsFold (fields : List (String × FieldValue))
    (m : List (String × Int)) (h : (smapKeys m).Nodup) :
    (smapKeys (fields.foldl
      (fun acc p => smapInsert acc p.1 (column_type_from_field p.2).toCode)
      m)).Nodup := by
  induction fields generalizing m with
  | nil => simpa
  | cons p rest ih => exact ih _ (nodup_smapKeys_insert m p.1 _ h)

/-- The column set of a newly created table: the line's tag keys, field
names, and the time column. -/
theorem lineTableColumns_isSome (line : ParsedLine) (c : String) :
    (smapFind? (lineTableColumns line) c).isSome ↔
      c ∈ lineTagKeys line ∨ c ∈ lineFieldKeys line ∨ c = TIME_COLUMN_NAME := by
  unfold lineTableColumns
  dsimp only
  simp only [smapInsert_isSome_iff, fieldsFold_isSome, tagsFold_isSome,
    lineTagKeys, lineFieldKeys]
  simp [smapFind?]
  tauto

theorem nodup_lineTableColumns (line : ParsedLine) :
    (smapKeys (lineTableColumns line)).Nodup := by
  unfold lineTableColumns
  dsimp only
  exact nodup_smapKeys_insert _ _ _
    (nodup_fieldsFold _ _ (nodup_tagsFold _ _ (by simp [smapKeys])))

/-- Keys of a key-preserving pair construction. -/
theorem map_fst_map_pair {τ : Type} (l : List (String × τ)) (g : String × τ → Int) :
    (l.map (fun p => (p.1, g p))).map Prod.fst = l.map Prod.fst := by
  rw [List.map_map]
  exact List.map_congr_left (fun p _ => rfl)

/-- Under well-formedness, the new-table column map is literally the tag
pairs, the field pairs, and the time column, in that order. -/
theorem lineTableColumns_eq (line : ParsedLine) (hwf : wellFormedLine line) :
    lineTableColumns line =
      (line.tag_set.getD []).map (fun p => (p.1, ColumnType.tag.toCode))
        ++ line.field_set.map (fun p => (p.1, (column_type_from_field p.2).toCode))
        ++ [(TIME_COLUMN_NAME, ColumnType.time.toCode)] := by
  have h := hwf
  unfold wellFormedLine at h
  rw [List.append_assoc] at h
  obtain ⟨htag, h23⟩ := List.nodup_append.mp h
  obtain ⟨hfld, htime, hdisj23⟩ := List.nodup_append.mp h23.1
  have hdisj1 := h23.2
  have hkeysT : ((line.tag_set.getD []).map
      (fun p => (p.1, ColumnType.tag.toCode))).map Prod.fst = lineTagKeys line :=
    map_fst_map_pair _ _
  have hkeysF : (line.field_set.map
      (fun p => (p.1, (column_type_from_field p.2).toCode))).map Prod.fst =
      lineFieldKeys line :=
    map_fst_map_pair _ _
  have h1 : (line.tag_set.getD []).foldl
      (fun m p => smapInsert m p.1 ColumnType.tag.toCode) [] =
      (line.tag_set.getD []).map (fun p => (p.1, ColumnType.tag.toCode)) := by
    rw [show (line.tag_set.getD []).foldl
        (fun m p => smapInsert m p.1 ColumnType.tag.toCode) [] =
        ((line.tag_set.getD []).map (fun p => (p.1, ColumnType.tag.toCode))).foldl
          (fun m q => smapInsert m q.1 q.2) [] by rw [List.foldl_map]]
    rw [foldl_smapInsert_append _ _ (by simp [smapKeys]) (by rw [hkeysT]; exact htag)]
    simp
  have h2 : line.field_set.foldl
      (fun m p => smapInsert m p.1 (column_type_from_field p.2).toCode)
      ((line.tag_set.getD []).map (fun p => (p.1, ColumnType.tag.toCode))) =
      (line.tag_set.getD []).map (fun p => (p.1, ColumnType.tag.toCode))
        ++ line.field_set.map (fun p => (p.1, (column_type_from_field p.2).toCode)) := by
    rw [show line.field_set.foldl
        (fun m p => smapInsert m p.1 (column_type_from_field p.2).toCode)
        ((line.tag_set.getD []).map (fun p => (p.1, ColumnType.tag.toCode))) =
        (line.field_set.map
          (fun p => (p.1, (column_type_from_field p.2).toCode))).foldl
          (fun m q => smapInsert m q.1 q.2)
          ((line.tag_set.getD []).map (fun p => (p.1, ColumnType.tag.toCode)))
        by rw [List.foldl_map]]
    rw [foldl_smapInsert_append]
    · intro k hk
      rw [hkeysF] at hk
      show ¬ k ∈ _
      rw [show smapKeys ((line.tag_set.getD []).map
          (fun p => (p.1, ColumnType.tag.toCode))) = lineTagKeys line from hkeysT]
      exact fun hc => (List.disjoint_right.mp hdisj1) (List.mem_append_left _ hk) hc
    · rw [hkeysF]
      exact hfld
  have htimeNotMem : TIME_COLUMN_NAME ∉ smapKeys
      ((line.tag_set.getD []).map (fun p => (p.1, ColumnType.tag.toCode))
        ++ line.field_set.map (fun p => (p.1, (column_type_from_field p.2).toCode))) := by
    show ¬ TIME_COLUMN_NAME ∈ _
    unfold smapKeys
    rw [List.map_append, hkeysT, hkeysF]
    intro hc
    rcases List.mem_append.mp hc with hc1 | hc1
    · exact (List.disjoint_left.mp hdisj1) hc1 (by simp)
    · exact (List.disjoint_left.mp hdisj23) hc1 (by simp)
  unfold lineTableColumns
  dsimp only
  rw [h1, h2, smapInsert_of_not_mem _ _ _ htimeNotMem]

/-- When every tag key and field name of a line already exists as a
column, `new_cols` is empty. -/
theorem lineNewCols_eq_nil (t : TableDefinition) (line : ParsedLine)
    (h : ∀ c ∈ lineTagKeys line ++ lineFieldKeys line, t.column_exists c = true) :
    lineNewCols t line = [] := by
  unfold lineNewCols
  have h1 : (line.tag_set.getD []).filter (fun p => ! t.column_exists p.1) = [] := by
    rw [List.filter_eq_nil_iff]
    intro p hp
    simp [h p.1 (List.mem_append_left _
      (List.mem_map_of_mem Prod.fst hp))]
  have h2 : line.field_set.filter (fun p => ! t.column_exists p.1) = [] := by
    rw [List.filter_eq_nil_iff]
    intro p hp
    simp [h p.1 (List.mem_append_right _
      (List.mem_map_of_mem Prod.fst hp))]
  rw [h1, h2]
  rfl

/-- A line all of whose columns already exist leaves the schema, and the
`Cow` ownership flag, untouched. -/
theorem conv_schema_noop (line : ParsedLine) (raw : String) (st : ConvState)
    (ingest_time : Int) (segment_duration : SegmentDuration) (precision : Precision)
    (td : TableDefinition)
    (hfind : smapFind? st.schema.tables line.measurement = some td)
    (hcols : ∀ c ∈ lineTagKeys line ++ lineFieldKeys line, td.column_exists c = true) :
    (validate_and_convert_parsed_line line raw st ingest_time segment_duration
      precision).schema = st.schema ∧
    (validate_and_convert_parsed_line line raw st ingest_time segment_duration
      precision).owned = st.owned := by
  rw [conv_unfold]
  dsimp only
  unfold updateSchemaForLine
  rw [hfind]
  dsimp only
  rw [lineNewCols_eq_nil td line hcols]
  simp

/-- Processing a batch whose every line's columns are already present
leaves the schema and the ownership flag untouched. -/
theorem processLines_schema_noop (ingest_time : Int)
    (segment_duration : SegmentDuration) (precision : Precision)
    (ls : List (ParsedLine × String)) (st : ConvState)
    (h : ∀ p ∈ ls, ∃ td, smapFind? st.schema.tables p.1.measurement = some td ∧
      ∀ c ∈ lineTagKeys p.1 ++ lineFieldKeys p.1, td.column_exists c = true) :
    (processLines ingest_time segment_duration precision st ls).schema = st.schema ∧
    (processLines ingest_time segment_duration precision st ls).owned = st.owned := by
  induction ls generalizing st with
  | nil => exact ⟨rfl, rfl⟩
  | cons p rest ih =>
      obtain ⟨l, r⟩ := p
      simp only [processLines]
      obtain ⟨td, hfind, hcols⟩ := h (l, r) (by simp)
      have hstep := conv_schema_noop l r st ingest_time segment_duration precision
        td hfind hcols
      have hrest := ih (validate_and_convert_parsed_line l r st ingest_time
        segment_duration precision)
        (by
          intro q hq
          rw [hstep.1]
          exact h q (List.mem_cons_of_mem _ hq))
      exact ⟨hrest.1.trans hstep.1, hrest.2.trans hstep.2⟩

/-- Characterization of the schema built from a processed batch `done`
(starting from an empty schema): a table exists iff some processed line
has that measurement, and its columns are exactly the time column plus
the union of the tag keys and field names its lines contributed, with no
duplicate columns. -/
def tablesChar (done : List (ParsedLine × String)) (schema : DatabaseSchema) : Prop :=
  (∀ tn, (smapFind? schema.tables tn).isSome ↔ ∃ p ∈ done, p.1.measurement = tn) ∧
  (∀ tn td, smapFind? schema.tables tn = some td →
    (∀ c, td.column_exists c = true ↔
      (c = TIME_COLUMN_NAME ∨ ∃ p ∈ done, p.1.measurement = tn ∧
        (c ∈ lineTagKeys p.1 ∨ c ∈ lineFieldKeys p.1))) ∧
    (smapKeys td.columns).Nodup)

theorem tablesChar_step (schema : DatabaseSchema) (line : ParsedLine) (raw : String)
    (done : List (ParsedLine × String)) (h : tablesChar done schema) :
    tablesChar (done ++ [(line, raw)]) (updateSchemaForLine schema line).1 := by
  obtain ⟨hsome, hcols⟩ := h
  unfold updateSchemaForLine
  cases hfind : smapFind? schema.tables line.measurement with
  | some t =>
      dsimp only
      by_cases hnc : (lineNewCols t line).isEmpty
      · rw [if_pos hnc]
        dsimp only
        constructor
        · intro tn
          rw [hsome tn]
          constructor
          · rintro ⟨p, hp, hm⟩
            exact ⟨p, List.mem_append_left _ hp, hm⟩
          · rintro ⟨p, hp, hm⟩
            rcases List.mem_append.mp hp with hp1 | hp1
            · exact ⟨p, hp1, hm⟩
            · have hp2 : p = (line, raw) := by simpa using hp1
              subst hp2
              have hs : (smapFind? schema.tables line.measurement).isSome := by
                rw [hfind]; rfl
              obtain ⟨q, hq, hqm⟩ := (hsome line.measurement).mp hs
              exact ⟨q, hq, by rw [hqm]; exact hm⟩
        · intro tn td hfd
          have hbase := hcols tn td hfd
          refine ⟨?_, hbase.2⟩
          intro c
          constructor
          · intro hex
            rcases (hbase.1 c).mp hex with hc | ⟨p, hp, hm, hk⟩
            · exact Or.inl hc
            · exact Or.inr ⟨p, List.mem_append_left _ hp, hm, hk⟩
          · rintro (hc | ⟨p, hp, hm, hk⟩)
            · exact (hbase.1 c).mpr (Or.inl hc)
            · rcases List.mem_append.mp hp with hp1 | hp1
              · exact (hbase.1 c).mpr (Or.inr ⟨p, hp1, hm, hk⟩)
              · have hp2 : p = (line, raw) := by simpa using hp1
                subst hp2
                have htd : td = t := by
                  rw [← hm] at hfd
                  rw [hfind] at hfd
                  exact (Option.some.inj hfd).symm
                have hex : t.column_exists c = true := by
                  by_contra hex
                  have hfalse : t.column_exists c = false := by simpa using hex
                  have hmem : c ∈ (lineNewCols t line).map Prod.fst :=
                    (mem_lineNewCols_keys t line c).mpr ⟨hk, hfalse⟩
                  rw [List.isEmpty_iff.mp hnc] at hmem
                  simp at hmem
                rw [htd]
                exact hex
      · rw [if_neg hnc]
        dsimp only
        constructor
        · intro tn
          rw [smapInsert_isSome_iff, hsome tn]
          constructor
          · rintro (hc | ⟨p, hp, hm⟩)
            · exact ⟨(line, raw), by simp, hc.symm⟩
            · exact ⟨p, List.mem_append_left _ hp, hm⟩
          · rintro ⟨p, hp, hm⟩
            rcases List.mem_append.mp hp with hp1 | hp1
            · exact Or.inr ⟨p, hp1, hm⟩
            · have hp2 : p = (line, raw) := by simpa using hp1
              subst hp2
              exact Or.inl hm.symm
        · intro tn td hfd
          by_cases htn : tn = line.measurement
          · subst htn
            rw [smapFind?_insert_self] at hfd
            have htd : td = t.add_columns (lineNewCols t line) :=
              (Option.some.inj hfd).symm
            have hbase := hcols line.measurement t hfind
            constructor
            · intro c
              rw [htd, column_exists_add_columns, mem_lineNewCols_keys]
              constructor
              · rintro (hex | ⟨hk, hexf⟩)
                · rcases (hbase.1 c).mp hex with hc | ⟨p, hp, hm, hk⟩
                  · exact Or.inl hc
                  · exact Or.inr ⟨p, List.mem_append_left _ hp, hm, hk⟩
                · exact Or.inr ⟨(line, raw), by simp, rfl, hk⟩
              · rintro (hc | ⟨p, hp, hm, hk⟩)
                · exact Or.inl ((hbase.1 c).mpr (Or.inl hc))
                · rcases List.mem_append.mp hp with hp1 | hp1
                  · exact Or.inl ((hbase.1 c).mpr (Or.inr ⟨p, hp1, hm, hk⟩))
                  · have hp2 : p = (line, raw) := by simpa using hp1
                    subst hp2
                    by_cases hex : t.column_exists c = true
                    · exact Or.inl hex
                    · exact Or.inr ⟨hk, by simpa using hex⟩
            · rw [htd]
              exact nodup_smapKeys_foldl_insert _ _ hbase.2
          · rw [smapFind?_insert_ne _ _ _ _ htn] at hfd
            have hbase := hcols tn td hfd
            refine ⟨?_, hbase.2⟩
            intro c
            constructor
            · intro hex
              rcases (hbase.1 c).mp hex with hc | ⟨p, hp, hm, hk⟩
              · exact Or.inl hc
              · exact Or.inr ⟨p, List.mem_append_left _ hp, hm, hk⟩
            · rintro (hc | ⟨p, hp, hm, hk⟩)
              · exact (hbase.1 c).mpr (Or.inl hc)
              · rcases List.mem_append.mp hp with hp1 | hp1
                · exact (hbase.1 c).mpr (Or.inr ⟨p, hp1, hm, hk⟩)
                · have hp2 : p = (line, raw) := by simpa using hp1
                  subst hp2
                  exact absurd hm.symm htn
  | none =>
      dsimp only
      constructor
      · intro tn
        rw [smapInsert_isSome_iff, hsome tn]
        constructor
        · rintro (hc | ⟨p, hp, hm⟩)
          · exact ⟨(line, raw), by simp, hc.symm⟩
          · exact ⟨p, List.mem_append_left _ hp, hm⟩
        · rintro ⟨p, hp, hm⟩
          rcases List.mem_append.mp hp with hp1 | hp1
          · exact Or.inr ⟨p, hp1, hm⟩
          · have hp2 : p = (line, raw) := by simpa using hp1
            subst hp2
            exact Or.inl hm.symm
      · intro tn td hfd
        by_cases htn : tn = line.measurement
        · subst htn
          rw [smapFind?_insert_self] at hfd
          have htd : td = ⟨line.measurement, lineTableColumns line⟩ :=
            (Option.some.inj hfd).symm
          refine ⟨?_, by rw [htd]; exact nodup_lineTableColumns line⟩
          intro c
          rw [htd]
          show (smapFind? (lineTableColumns line) c).isSome = true ↔ _
          rw [show ((smapFind? (lineTableColumns line) c).isSome = true) =
            ((smapFind? (lineTableColumns line) c).isSome : Prop) from rfl]
          rw [lineTableColumns_isSome]
          constructor
          · rintro (hk | hk | hk)
            · exact Or.inr ⟨(line, raw), by simp, rfl, Or.inl hk⟩
            · exact Or.inr ⟨(line, raw), by simp, rfl, Or.inr hk⟩
            · exact Or.inl hk
          · rintro (hc | ⟨p, hp, hm, hk⟩)
            · exact Or.inr (Or.inr hc)
            · rcases List.mem_append.mp hp with hp1 | hp1
              · have hs : (smapFind? schema.tables line.measurement).isSome :=
                  (hsome line.measurement).mpr ⟨p, hp1, hm⟩
                rw [hfind] at hs
                simp at hs
              · have hp2 : p = (line, raw) := by simpa using hp1
                subst hp2
                rcases hk with hk | hk
                · exact Or.inl hk
                · exact Or.inr (Or.inl hk)
        · rw [smapFind?_insert_ne _ _ _ _ htn] at hfd
          have hbase := hcols tn td hfd
          refine ⟨?_, hbase.2⟩
          intro c
          constructor
          · intro hex
            rcases (hbase.1 c).mp hex with hc | ⟨p, hp, hm, hk⟩
            · exact Or.inl hc
            · exact Or.inr ⟨p, List.mem_append_left _ hp, hm, hk⟩
          · rintro (hc | ⟨p, hp, hm, hk⟩)
            · exact (hbase.1 c).mpr (Or.inl hc)
            · rcases List.mem_append.mp hp with hp1 | hp1
              · exact (hbase.1 c).mpr (Or.inr ⟨p, hp1, hm, hk⟩)
              · have hp2 : p = (line, raw) := by simpa using hp1
                subst hp2
                exact absurd hm.symm htn

theorem processLines_tablesChar (ingest_time : Int)
    (segment_duration : SegmentDuration) (precision : Precision)
    (ls : List (ParsedLine × String)) (st : ConvState)
    (done : List (ParsedLine × String)) (h : tablesChar done st.schema) :
    tablesChar (done ++ ls)
      (processLines ingest_time segment_duration precision st ls).schema := by
  induction ls generalizing st done with
  | nil => simpa using h
  | cons p rest ih =>
      obtain ⟨l, r⟩ := p
      simp only [processLines]
      have hstep : tablesChar (done ++ [(l, r)])
          (validate_and_convert_parsed_line l r st ingest_time segment_duration
            precision).schema := by
        rw [conv_unfold]
        exact tablesChar_step st.schema l r done h
      have hrest := ih _ (done ++ [(l, r)]) hstep
      simpa [List.append_assoc] using hrest

theorem tablesChar_empty (name : String) :
    tablesChar [] (DatabaseSchema.empty name) := by
  constructor
  · intro tn
    simp [DatabaseSchema.empty, smapFind?]
  · intro tn td hfd
    simp [DatabaseSchema.empty, smapFind?] at hfd

/-! ## C6 — new-table creation -/

/-- Modelled from the spec: the external parser's output on the two-line
input `"cpu,region=west user=23.2 100\nfoo f1=1i"` (23.2 carries IEEE-754
bits 0x4037333333333333). -/
def parse_two_lines : String → Except String ParsedLine := fun s =>
  if s = "cpu,region=west user=23.2 100" then
    .ok ⟨"cpu", some [("region", "west")],
      [("user", .f64 4627223437141816115)], some 100⟩
  else if s = "foo f1=1i" then
    .ok ⟨"foo", none, [("f1", .i64 1)], none⟩
  else .error "parse failure"

/-- The schema produced for the C6 scenario input. -/
def c6Schema : DatabaseSchema :=
  ⟨"foo", [("cpu", ⟨"cpu", [("region", 7), ("user", 3), ("time", 6)]⟩),
           ("foo", ⟨"foo", [("f1", 1), ("time", 6)]⟩)]⟩

/-- **C6.** A line naming an absent table creates a new `TableDefinition`
whose column set is exactly the line's tag names (typed Tag), its field
names (types inferred from the values), and one time column — stated for
every well-formed line against every schema lacking the measurement; and
the scenario: `"cpu,region=west user=23.2 100\nfoo f1=1i"` against an
empty schema yields exactly the two tables `cpu` (columns region, user,
time) and `foo` (columns f1, time). -/
theorem new_table_from_line :
    (∀ (line : ParsedLine) (raw : String) (st : ConvState) (ingest_time : Int)
        (segment_duration : SegmentDuration) (precision : Precision),
      smapFind? st.schema.tables line.measurement = none →
      wellFormedLine line →
      smapFind? (validate_and_convert_parsed_line line raw st ingest_time
          segment_duration precision).schema.tables line.measurement =
        some ⟨line.measurement,
          (line.tag_set.getD []).map (fun p => (p.1, ColumnType.tag.toCode))
            ++ line.field_set.map
              (fun p => (p.1, (column_type_from_field p.2).toCode))
            ++ [(TIME_COLUMN_NAME, ColumnType.time.toCode)]⟩) ∧
    (parse_validate_and_update_schema parse_two_lines
        "cpu,region=west user=23.2 100\nfoo f1=1i"
        (DatabaseSchema.empty "foo") "foo" 0 SegmentDuration.new_5m false
        Precision.nanosecond).map (Except.map ValidationResult.schema) =
      some (.ok (some c6Schema)) ∧
    smapKeys c6Schema.tables = ["cpu", "foo"] ∧
    (smapFind? c6Schema.tables "cpu").map (fun t => smapKeys t.columns) =
      some ["region", "user", "time"] ∧
    (smapFind? c6Schema.tables "foo").map (fun t => smapKeys t.columns) =
      some ["f1", "time"] := by
  refine ⟨?_, by rfl, by decide, by decide, by decide⟩
  intro line raw st ingest_time segment_duration precision habs hwf
  rw [conv_unfold]
  dsimp only
  unfold updateSchemaForLine
  rw [habs]
  dsimp only
  rw [smapFind?_insert_self, lineTableColumns_eq line hwf]

/-- Concrete instantiation of `new_table_from_line`'s general part: a
fresh table built from a single well-formed line. -/
theorem new_table_from_line_witness :
    smapFind? (validate_and_convert_parsed_line
        ⟨"disk", some [("host", "a")], [("used", .u64 7)], some 42⟩ "disk,host=a used=7u 42"
        ⟨[], DatabaseSchema.empty "db", false⟩ 0 SegmentDuration.new_5m
        Precision.nanosecond).schema.tables "disk" =
      some ⟨"disk", [("host", ColumnType.tag.toCode),
                     ("used", ColumnType.u64.toCode),
                     (TIME_COLUMN_NAME, ColumnType.time.toCode)]⟩ :=
  new_table_from_line.1
    ⟨"disk", some [("host", "a")], [("used", .u64 7)], some 42⟩
    "disk,host=a used=7u 42" ⟨[], DatabaseSchema.empty "db", false⟩ 0
    SegmentDuration.new_5m Precision.nanosecond (by decide) (by decide)

/-! ## C7 — idempotent schema growth -/

/-- The database schema held by the conversion state after processing a
batch against an initial schema. -/
def schemaAfter (lines : List (ParsedLine × String)) (schema : DatabaseSchema)
    (ingest_time : Int) (segment_duration : SegmentDuration)
    (precision : Precision) : DatabaseSchema :=
  (processLines ingest_time segment_duration precision ⟨[], schema, false⟩ lines).schema

/-- **C7.** Schema growth is idempotent: validating a batch a second time
against the schema the first validation produced from a fresh schema adds
no columns (the second run reports no schema update and leaves the schema
identical), and the first run's schema has, per table, exactly the union
of the batch's contributed tag names, field names and the time column,
with no duplicate columns. -/
theorem idempotent_schema_growth (lines : List (ParsedLine × String))
    (name db_name : String) (ingest_time : Int)
    (segment_duration : SegmentDuration) (precision : Precision) :
    (validate_or_insert_schema_and_partitions lines
        (schemaAfter lines (DatabaseSchema.empty name) ingest_time segment_duration
          precision) db_name ingest_time segment_duration precision).schema = none ∧
    schemaAfter lines (schemaAfter lines (DatabaseSchema.empty name) ingest_time
        segment_duration precision) ingest_time segment_duration precision =
      schemaAfter lines (DatabaseSchema.empty name) ingest_time segment_duration
        precision ∧
    (∀ tn, (smapFind? (schemaAfter lines (DatabaseSchema.empty name) ingest_time
        segment_duration precision).tables tn).isSome ↔
      ∃ p ∈ lines, p.1.measurement = tn) ∧
    (∀ tn td, smapFind? (schemaAfter lines (DatabaseSchema.empty name) ingest_time
        segment_duration precision).tables tn = some td →
      (∀ c, td.column_exists c = true ↔
        (c = TIME_COLUMN_NAME ∨ ∃ p ∈ lines, p.1.measurement = tn ∧
          (c ∈ lineTagKeys p.1 ∨ c ∈ lineFieldKeys p.1))) ∧
      (smapKeys td.columns).Nodup) := by
  have hchar : tablesChar lines (schemaAfter lines (DatabaseSchema.empty name)
      ingest_time segment_duration precision) := by
    have h := processLines_tablesChar ingest_time segment_duration precision lines
      ⟨[], DatabaseSchema.empty name, false⟩ [] (tablesChar_empty name)
    simpa [schemaAfter] using h
  have hnoop := processLines_schema_noop ingest_time segment_duration precision lines
    (⟨[], schemaAfter lines (DatabaseSchema.empty name) ingest_time segment_duration
      precision, false⟩ : ConvState)
    (by
      intro p hp
      obtain ⟨td, hfd⟩ := Option.isSome_iff_exists.mp
        ((hchar.1 p.1.measurement).mpr ⟨p, hp, rfl⟩)
      refine ⟨td, hfd, ?_⟩
      intro c hc
      exact ((hchar.2 p.1.measurement td hfd).1 c).mpr
        (Or.inr ⟨p, hp, rfl, by
          rcases List.mem_append.mp hc with hc1 | hc1
          · exact Or.inl hc1
          · exact Or.inr hc1⟩))
  refine ⟨?_, hnoop.1, hchar.1, hchar.2⟩
  unfold validate_or_insert_schema_and_partitions
  dsimp only
  rw [hnoop.2]
  rfl

/-- Concrete instantiation of `idempotent_schema_growth`: re-validating
the two-bucket batch `cLines` against its own schema reports no schema
change, and the `cpu` table's columns are exactly `a` and `time`. -/
theorem idempotent_schema_growth_witness :
    (validate_or_insert_schema_and_partitions cLines
        (schemaAfter cLines (DatabaseSchema.empty "db") 0 SegmentDuration.new_5m
          Precision.nanosecond) "db" 0 SegmentDuration.new_5m
        Precision.nanosecond).schema = none ∧
    ("a" = TIME_COLUMN_NAME ∨ ∃ p ∈ cLines, p.1.measurement = "cpu" ∧
      ("a" ∈ lineTagKeys p.1 ∨ "a" ∈ lineFieldKeys p.1)) := by
  have h := idempotent_schema_growth cLines "db" "db" 0 SegmentDuration.new_5m
    Precision.nanosecond
  refine ⟨h.1, ?_⟩
  have h4 := (h.2.2.2 "cpu" ⟨"cpu", [("a", 1), ("time", 6)]⟩ (by decide)).1 "a"
  exact h4.mp (by decide)

end InfluxModel
